import Mathlib

/-!
Verification of the task-dependency scheduler and goal-alignment monitor of
the superpowers-teams repository.

The JavaScript sources are shallowly embedded:
* `scripts/teams-helpers/task-grouping.js` (task grouping, dependency graph,
  Kahn topological order, validation, teammate suggestion);
* `skills/executing-as-team/lib/team-manager.js` (failure handling, oversight
  check, execution summary);
* `skills/goal-alignment-monitor/lib/checkers.js` (the five alignment
  checkers and result aggregation);
* `skills/goal-alignment-monitor/lib/alert-system.js` (milestone report).

JavaScript `Map` objects are modelled as association lists with
insertion-order semantics; `undefined` fields become `Option`; JS numbers
used as counters become `Int`/`Nat`; `Math.round` on a fraction becomes
`jsRound` on `ℚ`.
-/

namespace Teams

/-- A task as supplied to the helpers: `{id, title, dependencies}`.
An absent `dependencies` array behaves as `[]` everywhere in the source
(`task.dependencies || []`), so it is modelled as a plain list. -/
structure Task where
  id : String
  title : String
  dependencies : List String
  deriving Repr, DecidableEq

/-- The key a task is stored under: JS `task.id || task.title`
(an empty `id` is falsy). -/
def taskKey (t : Task) : String :=
  if t.id = "" then t.title else t.id

/-- All task keys in input order. -/
def keysOf (tasks : List Task) : List String :=
  tasks.map taskKey

/-! ### JS `Map` as an association list -/

/-- `Map.prototype.get`: first binding of the key, if any. -/
def mapGet : List (String × α) → String → Option α
  | [], _ => none
  | p :: rest, k => if p.1 = k then some p.2 else mapGet rest k

/-- `Map.prototype.set`: replace the binding in place if the key is
present, otherwise append (JS Maps preserve insertion order). -/
def mapSet (m : List (String × α)) (k : String) (v : α) : List (String × α) :=
  match m with
  | [] => [(k, v)]
  | p :: rest => if p.1 = k then (k, v) :: rest else p :: mapSet rest k v

/-- Mutating the value stored under `k` (a no-op when `k` is absent),
as done by `depNode.dependents.push(...)` on a node fetched from the map. -/
def mapUpdate (m : List (String × α)) (k : String) (f : α → α) :
    List (String × α) :=
  m.map (fun p => if p.1 = k then (k, f p.2) else p)

theorem mapGet_set (m : List (String × α)) (k k' : String) (v : α) :
    mapGet (mapSet m k v) k' = if k' = k then some v else mapGet m k' := by
  induction m with
  | nil =>
    by_cases h : k' = k
    · subst h; simp [mapSet, mapGet]
    · simp only [mapSet, mapGet, if_neg h]
      rw [if_neg (fun hh : k = k' => h hh.symm)]
  | cons p rest ih =>
    by_cases hp : p.1 = k
    · by_cases h : k' = k
      · subst h; simp [mapSet, hp, mapGet]
      · simp only [mapSet, if_pos hp, mapGet, if_neg h]
        rw [if_neg (fun hh : k = k' => h hh.symm), if_neg (fun hh : p.1 = k' => h (hh.symm.trans hp))]
    · by_cases h : k' = k
      · subst h
        have hp' : ¬ p.1 = k' := hp
        simp only [mapSet, if_neg hp, mapGet, if_neg hp', ih, if_pos rfl]
      · by_cases hpk' : p.1 = k'
        · simp only [mapSet, if_neg hp, mapGet, if_pos hpk', if_neg h]
        · simp only [mapSet, if_neg hp, mapGet, if_neg hpk', ih]

theorem mapGet_update (m : List (String × α)) (k k' : String) (f : α → α) :
    mapGet (mapUpdate m k f) k' =
      if k' = k then (mapGet m k').map f else mapGet m k' := by
  induction m with
  | nil => by_cases h : k' = k <;> simp [mapUpdate, mapGet, h]
  | cons p rest ih =>
    have hrest : mapGet (List.map (fun p => if p.1 = k then (k, f p.2) else p) rest) k'
        = mapGet (mapUpdate rest k f) k' := rfl
    by_cases hp : p.1 = k
    · by_cases h : k' = k
      · subst h
        simp only [mapUpdate, List.map_cons, if_pos hp, mapGet, if_pos rfl, if_pos (rfl : k' = k')]
        simp [hp]
      · have hk : ¬ k = k' := fun hh => h hh.symm
        simp only [mapUpdate, List.map_cons, if_pos hp, mapGet, if_neg hk, if_neg h]
        rw [hrest, ih, if_neg h, if_neg (show ¬ p.1 = k' from hp ▸ hk)]
    · by_cases hpk' : p.1 = k'
      · have h : ¬ k' = k := fun hh => hp (hpk'.trans hh)
        simp only [mapUpdate, List.map_cons, if_neg hp, mapGet, if_pos hpk', if_neg h]
      · by_cases h : k' = k
        · subst h
          simp only [mapUpdate, List.map_cons, if_neg hp, mapGet, if_neg hpk']
          rw [hrest, ih]
          simp
        · simp only [mapUpdate, List.map_cons, if_neg hp, mapGet, if_neg hpk']
          rw [hrest, ih, if_neg h]

theorem mapUpdate_keys (m : List (String × α)) (k : String) (f : α → α) :
    (mapUpdate m k f).map (fun p => p.1) = m.map (fun p => p.1) := by
  induction m with
  | nil => rfl
  | cons p rest ih =>
    by_cases hp : p.1 = k
    · simp only [mapUpdate, List.map_cons, if_pos hp] at ih ⊢
      rw [hp]
      exact congrArg (List.cons k) ih
    · simp only [mapUpdate, List.map_cons, if_neg hp] at ih ⊢
      exact congrArg (List.cons p.1) ih

theorem mapGet_eq_none_iff (m : List (String × α)) (k : String) :
    mapGet m k = none ↔ k ∉ m.map (fun p => p.1) := by
  induction m with
  | nil => simp [mapGet]
  | cons p rest ih =>
    by_cases hp : p.1 = k
    · simp [mapGet, hp]
    · simp [mapGet, hp, ih, Ne.symm hp]

theorem mapSet_of_not_mem (m : List (String × α)) (k : String) (v : α)
    (h : k ∉ m.map (fun p => p.1)) : mapSet m k v = m ++ [(k, v)] := by
  induction m with
  | nil => rfl
  | cons p rest ih =>
    simp only [List.map_cons, List.mem_cons] at h
    push_neg at h
    simp only [mapSet, if_neg (fun hh : p.1 = k => h.1 hh.symm), ih h.2, List.cons_append]

/-! ### `scripts/teams-helpers/task-grouping.js` -/

/-- A node of the dependency graph: `{dependents, dependencies, task}`. -/
structure GNode where
  dependents : List String
  dependencies : List String
  task : Task
  deriving Repr, DecidableEq

/-- The dependency graph: a JS `Map` from task key to node. -/
abbrev Graph := List (String × GNode)

/-- `buildDependencyGraph(tasks)`: first pass creates a node per task
(`graph.set(task.id || task.title, {dependents: [], dependencies, task})`),
second pass pushes `taskId` onto `dependents` of every existing dependency
node (`if (depNode) depNode.dependents.push(taskId)`). -/
def buildDependencyGraph (tasks : List Task) : Graph :=
  let pass1 := tasks.foldl
    (fun g t => mapSet g (taskKey t) ⟨[], t.dependencies, t⟩) []
  tasks.foldl
    (fun g t =>
      t.dependencies.foldl
        (fun g depId =>
          mapUpdate g depId
            (fun n => { n with dependents := n.dependents ++ [taskKey t] }))
        g)
    pass1

/-- `getDependentTasks(taskId, dependencyGraph)`:
`node ? node.dependents : []`. -/
def getDependentTasks (taskId : String) (dependencyGraph : Graph) : List String :=
  match mapGet dependencyGraph taskId with
  | some n => n.dependents
  | none => []

/-- Result record of `groupTasksForTeams`. The early return for an empty
input omits `totalTasks`/`parallelizableTasks`, hence the `Option`. -/
structure TaskGroups where
  independent : List Task
  dependent : List Task
  dependencyGraph : Graph
  maxParallel : Nat
  totalTasks : Option Nat
  parallelizableTasks : Option Nat
  deriving Repr, DecidableEq

/-- `groupTasksForTeams(tasks)`: partition into tasks with empty / non-empty
dependency lists, build the graph, and cap parallelism at 5. -/
def groupTasksForTeams (tasks : List Task) : TaskGroups :=
  if tasks.isEmpty then
    { independent := [], dependent := [], dependencyGraph := []
      maxParallel := 0, totalTasks := none, parallelizableTasks := none }
  else
    let independent := tasks.filter (fun t => t.dependencies.isEmpty)
    let dependent := tasks.filter (fun t => ¬ t.dependencies.isEmpty)
    { independent := independent
      dependent := dependent
      dependencyGraph := buildDependencyGraph tasks
      maxParallel := min independent.length 5
      totalTasks := some tasks.length
      parallelizableTasks := some independent.length }

/-- Sum of the positive parts of the stored in-degrees; used as the
termination measure of the Kahn loop. -/
def kdeg (deg : List (String × Int)) : Nat :=
  (deg.map (fun p => p.2.toNat)).sum

/-- One dependent update inside the Kahn while-loop: look up the dependent's
in-degree, decrement it, and enqueue the dependent when the new degree is 0.
A missing entry (unreachable: every dependent is a task key) corresponds to
JS `undefined - 1 = NaN`, which never equals 0 and poisons later reads, so
it is modelled as leaving the state unchanged. -/
def kahnStep (dq : List (String × Int) × List String) (depId : String) :
    List (String × Int) × List String :=
  match mapGet dq.1 depId with
  | some c =>
      (mapSet dq.1 depId (c - 1), if c - 1 = 0 then dq.2 ++ [depId] else dq.2)
  | none => dq

/-- The `while (queue.length > 0)` loop of `calculateExecutionOrder`,
made structural with fuel; `calculateExecutionOrder` supplies fuel that is
proved sufficient (`kahnLoop_fuel`-style arguments below), so the loop
always ends with an empty queue, exactly like the source loop. -/
def kahnLoop (graph : Graph) :
    Nat → List (String × Int) → List String → List String → List String
  | 0, _, _, order => order
  | _ + 1, _, [], order => order
  | fuel + 1, deg, current :: queue, order =>
      let dq := (getDependentTasks current graph).foldl kahnStep (deg, queue)
      kahnLoop graph fuel dq.1 dq.2 (order ++ [current])

/-- `calculateExecutionOrder(tasks, dependencyGraph)`: Kahn's algorithm.
In-degrees are the declared dependency counts; the initial queue holds the
zero-in-degree keys in insertion order. -/
def calculateExecutionOrder (tasks : List Task) (graph : Graph) :
    List String :=
  let inDeg := tasks.foldl
    (fun m t => mapSet m (taskKey t) ((t.dependencies.length : Int))) []
  let queue := (inDeg.filter (fun p => p.2 = 0)).map (fun p => p.1)
  kahnLoop graph (kdeg inDeg + queue.length + 1) inDeg queue []

/-- Result of `validateDependencies`. -/
structure ValidationResult where
  valid : Bool
  cycleDetected : Bool
  deriving Repr, DecidableEq

/-- `validateDependencies(tasks)`: valid iff the topological order covers
every task. -/
def validateDependencies (tasks : List Task) : ValidationResult :=
  let graph := buildDependencyGraph tasks
  let order := calculateExecutionOrder tasks graph
  { valid := order.length = tasks.length
    cycleDetected := order.length ≠ tasks.length }

/-- Result of `suggestTeammateCount`. -/
structure Suggestion where
  count : Nat
  reason : String
  deriving Repr, DecidableEq

/-- `suggestTeammateCount(tasks)`: the tie-break table on the number of
independent tasks. -/
def suggestTeammateCount (tasks : List Task) : Suggestion :=
  let groups := groupTasksForTeams tasks
  let n := groups.independent.length
  if n = 0 then
    { count := 1, reason := "All tasks have dependencies, sequential execution needed" }
  else if n = 1 then
    { count := 1, reason := "Only one independent task" }
  else if n ≤ 3 then
    { count := n, reason := "Small number of independent tasks" }
  else
    { count := groups.maxParallel
      reason := "Adaptive: " ++ toString n ++ " independent tasks, capped at "
        ++ toString groups.maxParallel }

/-! ### `skills/executing-as-team/lib/team-manager.js`: failure handling -/

/-- The record returned by `TeamManager.handleTaskFailure`. -/
structure FailureResult where
  success : Bool
  taskId : String
  error : String
  blockedDependents : List String
  deriving Repr, DecidableEq

/-- `TeamManager.handleTaskFailure(task, error)`: rebuild the groups, read
the failed task's `dependents` from the graph, and push every dependent not
already in `this.blockedTasks` onto it.  Returns the new blocked list
together with the result record. -/
def handleTaskFailure (tasks : List Task) (blockedTasks : List String)
    (failedTaskId : String) (error : String) :
    List String × FailureResult :=
  let groups := groupTasksForTeams tasks
  let dependents := getDependentTasks failedTaskId groups.dependencyGraph
  let blocked' := dependents.foldl
    (fun b depId => if b.contains depId then b else b ++ [depId]) blockedTasks
  (blocked', { success := false, taskId := failedTaskId, error := error
               blockedDependents := dependents })

theorem pushUnique_mem (l acc : List String) (x : String) :
    x ∈ l.foldl (fun b d => if b.contains d then b else b ++ [d]) acc ↔
      x ∈ acc ∨ x ∈ l := by
  induction l generalizing acc with
  | nil => simp
  | cons d rest ih =>
    simp only [List.foldl_cons, ih, List.mem_cons]
    by_cases hd : acc.contains d
    · rw [if_pos hd]
      constructor
      · rintro (h | h)
        · exact Or.inl h
        · exact Or.inr (Or.inr h)
      · rintro (h | h | h)
        · exact Or.inl h
        · exact Or.inl (h ▸ (by simpa [List.elem_iff] using hd))
        · exact Or.inr h
    · rw [if_neg hd]
      simp only [List.mem_append, List.mem_singleton]
      tauto

theorem pushUnique_nodup (l acc : List String) (h : acc.Nodup) :
    (l.foldl (fun b d => if b.contains d then b else b ++ [d]) acc).Nodup := by
  induction l generalizing acc with
  | nil => exact h
  | cons d rest ih =>
    simp only [List.foldl_cons]
    by_cases hd : acc.contains d
    · rw [if_pos hd]; exact ih acc h
    · rw [if_neg hd]
      refine ih _ ?_
      have hdn : d ∉ acc := by simpa [List.elem_iff] using hd
      simpa [List.nodup_append] using ⟨h, hdn⟩

/-! ### Concrete task lists from the spec's scenarios -/

/-- Diamond: `1(∅), 2({1}), 3({1}), 4({2,3})`. -/
def diamondTasks : List Task :=
  [⟨"1", "Setup", []⟩, ⟨"2", "Auth", ["1"]⟩, ⟨"3", "API", ["1"]⟩,
   ⟨"4", "Tests", ["2", "3"]⟩]

/-- Ten tasks with no dependencies. -/
def tenIndepTasks : List Task :=
  (List.range 10).map (fun i => ⟨toString (i + 1), "Task", []⟩)

/-- Scenario `1(∅), 2(∅), 3({1})`. -/
def scenarioTasks : List Task :=
  [⟨"1", "Task 1", []⟩, ⟨"2", "Task 2", []⟩, ⟨"3", "Task 3", ["1"]⟩]

/-- Two-task cycle `1({2}), 2({1})`. -/
def cycleTasks : List Task :=
  [⟨"1", "Task 1", ["2"]⟩, ⟨"2", "Task 2", ["1"]⟩]

theorem groupTasks_independent_eq (tasks : List Task) :
    (groupTasksForTeams tasks).independent
      = tasks.filter (fun t => t.dependencies.isEmpty) := by
  by_cases h : tasks.isEmpty
  · rw [List.isEmpty_iff.mp h]; rfl
  · simp [groupTasksForTeams, h]

theorem groupTasks_maxParallel_eq (tasks : List Task) :
    (groupTasksForTeams tasks).maxParallel
      = min (tasks.filter (fun t => t.dependencies.isEmpty)).length 5 := by
  by_cases h : tasks.isEmpty
  · rw [List.isEmpty_iff.mp h]; rfl
  · simp [groupTasksForTeams, h]

/-- C7: `groupTasksForTeams` returns as `independent` exactly the tasks with
an empty dependency list, and `maxParallel = min(independent, 5)` for every
input; in particular ten independent tasks give `maxParallel = 5`. -/
theorem groupTasksForTeams_partition_and_cap (tasks : List Task) :
    (groupTasksForTeams tasks).independent
        = tasks.filter (fun t => t.dependencies.isEmpty)
    ∧ (groupTasksForTeams tasks).maxParallel
        = min (tasks.filter (fun t => t.dependencies.isEmpty)).length 5
    ∧ (groupTasksForTeams tenIndepTasks).maxParallel = 5 :=
  ⟨groupTasks_independent_eq tasks, groupTasks_maxParallel_eq tasks, by decide⟩

/-- C8: `suggestTeammateCount` follows the tie-break table on the number of
independent tasks (0 → 1 "All tasks have dependencies…", 1 → 1 "Only one
independent task", 2–3 → count "Small number of independent tasks",
≥4 → `maxParallel` with the adaptive rationale), and the scenario
`1(∅), 2(∅), 3({1})` yields count 2 with the small-count rationale. -/
theorem suggestTeammateCount_table (tasks : List Task) :
    ((groupTasksForTeams tasks).independent.length = 0 →
      suggestTeammateCount tasks
        = ⟨1, "All tasks have dependencies, sequential execution needed"⟩)
    ∧ ((groupTasksForTeams tasks).independent.length = 1 →
      suggestTeammateCount tasks = ⟨1, "Only one independent task"⟩)
    ∧ (2 ≤ (groupTasksForTeams tasks).independent.length →
      (groupTasksForTeams tasks).independent.length ≤ 3 →
      suggestTeammateCount tasks
        = ⟨(groupTasksForTeams tasks).independent.length,
           "Small number of independent tasks"⟩)
    ∧ (4 ≤ (groupTasksForTeams tasks).independent.length →
      suggestTeammateCount tasks
        = ⟨min (groupTasksForTeams tasks).independent.length 5,
           "Adaptive: "
             ++ toString (groupTasksForTeams tasks).independent.length
             ++ " independent tasks, capped at "
             ++ toString (min (groupTasksForTeams tasks).independent.length 5)⟩)
    ∧ suggestTeammateCount scenarioTasks
        = ⟨2, "Small number of independent tasks"⟩ := by
  have hmp : (groupTasksForTeams tasks).maxParallel
      = min (groupTasksForTeams tasks).independent.length 5 := by
    rw [groupTasks_maxParallel_eq, groupTasks_independent_eq]
  refine ⟨?_, ?_, ?_, ?_, by decide⟩
  · intro h; simp [suggestTeammateCount, h]
  · intro h; simp [suggestTeammateCount, h]
  · intro h2 h3
    have h0 : (groupTasksForTeams tasks).independent.length ≠ 0 := by omega
    have h1 : (groupTasksForTeams tasks).independent.length ≠ 1 := by omega
    simp [suggestTeammateCount, h0, h1, h3]
  · intro h4
    have h0 : (groupTasksForTeams tasks).independent.length ≠ 0 := by omega
    have h1 : (groupTasksForTeams tasks).independent.length ≠ 1 := by omega
    have h3 : ¬ (groupTasksForTeams tasks).independent.length ≤ 3 := by omega
    simp [suggestTeammateCount, h0, h1, h3, hmp]

/-- Witness for C8 at the scenario input. -/
theorem suggestTeammateCount_table_witness :
    2 ≤ (groupTasksForTeams scenarioTasks).independent.length ∧
    suggestTeammateCount scenarioTasks
      = ⟨(groupTasksForTeams scenarioTasks).independent.length,
         "Small number of independent tasks"⟩ :=
  ⟨by decide, (suggestTeammateCount_table scenarioTasks).2.2.1 (by decide) (by decide)⟩

/-- C1 (counterexample): in the diamond, the failure handler for task `1`
blocks only the direct dependents `2` and `3`; the transitive dependent `4`
is not in the blocked list, though `4` is a dependent of `2`. -/
theorem handleTaskFailure_diamond_not_transitive :
    (handleTaskFailure diamondTasks [] "1" "dispatch failed").1 = ["2", "3"]
    ∧ "4" ∉ (handleTaskFailure diamondTasks [] "1" "dispatch failed").1
    ∧ "4" ∈ getDependentTasks "2"
        (groupTasksForTeams diamondTasks).dependencyGraph := by decide

/-- C1 (amended): the failure handler blocks exactly the direct dependents
of the failed task read from the reverse-edge graph — each not-yet-blocked
one exactly once, never re-blocking an already blocked task. -/
theorem handleTaskFailure_blocks_direct_once (tasks : List Task)
    (blocked : List String) (fid err : String) (h : blocked.Nodup) :
    ((handleTaskFailure tasks blocked fid err).1).Nodup
    ∧ (∀ x, x ∈ (handleTaskFailure tasks blocked fid err).1 ↔
        x ∈ blocked ∨
          x ∈ getDependentTasks fid (groupTasksForTeams tasks).dependencyGraph)
    ∧ (∀ x ∈ getDependentTasks fid (groupTasksForTeams tasks).dependencyGraph,
        ((handleTaskFailure tasks blocked fid err).1).count x = 1)
    ∧ (handleTaskFailure tasks blocked fid err).2.blockedDependents
        = getDependentTasks fid (groupTasksForTeams tasks).dependencyGraph := by
  refine ⟨pushUnique_nodup _ _ h, fun x => pushUnique_mem _ _ x, ?_, rfl⟩
  intro x hx
  exact List.count_eq_one_of_mem (pushUnique_nodup _ _ h)
    ((pushUnique_mem _ _ x).mpr (Or.inr hx))

/-- Witness for C1 at the diamond. -/
theorem handleTaskFailure_blocks_direct_once_witness :
    ((handleTaskFailure diamondTasks [] "1" "dispatch failed").1).Nodup :=
  (handleTaskFailure_blocks_direct_once diamondTasks [] "1" "dispatch failed"
    List.nodup_nil).1

/-! ### Characterization of `buildDependencyGraph` -/

/-- The reverse-edge list the graph stores under key `k`: for every task in
input order, one entry per occurrence of `k` in its dependency list. -/
def dependentsOf (tasks : List Task) (k : String) : List String :=
  tasks.flatMap (fun T => List.replicate (T.dependencies.count k) (taskKey T))

theorem foldl_mapSet_closed (f : Task → α) :
    ∀ (tasks : List Task) (acc : List (String × α)),
      (∀ T ∈ tasks, taskKey T ∉ acc.map (fun p => p.1)) →
      (keysOf tasks).Nodup →
      tasks.foldl (fun m t => mapSet m (taskKey t) (f t)) acc
        = acc ++ tasks.map (fun t => (taskKey t, f t)) := by
  intro tasks
  induction tasks with
  | nil => intro acc _ _; simp
  | cons T rest ih =>
    intro acc hacc hnd
    simp only [List.foldl_cons]
    rw [mapSet_of_not_mem acc (taskKey T) (f T) (hacc T (List.mem_cons_self T rest))]
    rw [ih (acc ++ [(taskKey T, f T)]) ?_ ?_]
    · simp
    · have hnd' : (∀ x ∈ rest, ¬ taskKey x = taskKey T)
          ∧ (List.map taskKey rest).Nodup := by
        simpa [keysOf] using hnd
      intro T' hT'
      simp only [List.map_append, List.mem_append, List.map_cons, List.map_nil,
        List.mem_singleton]
      push_neg
      exact ⟨hacc T' (List.mem_cons_of_mem T hT'), hnd'.1 T' hT'⟩
    · have hnd' : (∀ x ∈ rest, ¬ taskKey x = taskKey T)
          ∧ (List.map taskKey rest).Nodup := by
        simpa [keysOf] using hnd
      simpa [keysOf] using hnd'.2

theorem mapGet_map_of_nodup (f : Task → α) (tasks : List Task)
    (h : (keysOf tasks).Nodup) (T : Task) (hT : T ∈ tasks) :
    mapGet (tasks.map (fun t => (taskKey t, f t))) (taskKey T) = some (f T) := by
  induction tasks with
  | nil => cases hT
  | cons T₀ rest ih =>
    have hnd : (∀ x ∈ rest, ¬ taskKey x = taskKey T₀)
        ∧ (List.map taskKey rest).Nodup := by
      simpa [keysOf] using h
    by_cases hk : taskKey T₀ = taskKey T
    · have hTT : T = T₀ := by
        rcases List.mem_cons.mp hT with h1 | h1
        · exact h1
        · exact absurd hk.symm (hnd.1 T h1)
      subst hTT
      simp [mapGet, hk]
    · have hTrest : T ∈ rest := by
        rcases List.mem_cons.mp hT with h1 | h1
        · exact absurd (congrArg taskKey h1.symm) hk
        · exact h1
      simp only [List.map_cons, mapGet, if_neg hk]
      exact ih (by simpa [keysOf] using hnd.2) hTrest

/-- The dependent-push operations of the second pass, flattened. -/
def depOps (tasks : List Task) : List (String × String) :=
  tasks.flatMap (fun T => T.dependencies.map (fun d => (d, taskKey T)))

theorem buildGraph_eq_opsFold (tasks : List Task) :
    buildDependencyGraph tasks
      = (depOps tasks).foldl
          (fun g p => mapUpdate g p.1
            (fun n => { n with dependents := n.dependents ++ [p.2] }))
          (tasks.foldl (fun g t => mapSet g (taskKey t) ⟨[], t.dependencies, t⟩) []) := by
  unfold buildDependencyGraph depOps
  generalize (tasks.foldl (fun g t => mapSet g (taskKey t) ⟨[], t.dependencies, t⟩) ([] : Graph)) = pass1
  induction tasks generalizing pass1 with
  | nil => rfl
  | cons T rest ih =>
    simp only [List.foldl_cons, List.flatMap_cons, List.foldl_append]
    rw [← ih]
    congr 1
    rw [List.foldl_map]

theorem foldl_update_get (ops : List (String × String)) (g : Graph) (k : String) :
    mapGet (ops.foldl
        (fun g p => mapUpdate g p.1
          (fun n => { n with dependents := n.dependents ++ [p.2] })) g) k
      = (mapGet g k).map
          (fun n => { n with dependents :=
            n.dependents ++ (ops.filter (fun p => p.1 = k)).map (fun p => p.2) }) := by
  induction ops generalizing g with
  | nil =>
    cases hg : mapGet g k <;> simp [hg]
  | cons p ops ih =>
    simp only [List.foldl_cons]
    rw [ih]
    rw [mapGet_update]
    by_cases hk : k = p.1
    · rw [if_pos hk]
      have hfilter : ((p :: ops).filter (fun q => q.1 = k)).map (fun q => q.2)
          = p.2 :: (ops.filter (fun q => q.1 = k)).map (fun q => q.2) := by
        simp [List.filter_cons, hk.symm]
      rw [hfilter]
      cases hg : mapGet g k <;> simp [hg]
    · rw [if_neg hk]
      have hpk : ¬ p.1 = k := fun hh => hk hh.symm
      have hfilter : ((p :: ops).filter (fun q => q.1 = k)).map (fun q => q.2)
          = (ops.filter (fun q => q.1 = k)).map (fun q => q.2) := by
        simp [List.filter_cons, hpk]
      rw [hfilter]

theorem depOps_filter (tasks : List Task) (k : String) :
    ((depOps tasks).filter (fun p => p.1 = k)).map (fun p => p.2)
      = dependentsOf tasks k := by
  unfold depOps dependentsOf
  rw [List.filter_flatMap, List.map_flatMap]
  congr 1
  funext T
  induction T.dependencies with
  | nil => rfl
  | cons d ds ih =>
    by_cases hd : d = k
    · subst hd
      simp [List.filter_cons, List.count_cons, List.replicate_succ, ih]
    · simp [List.filter_cons, hd, List.count_cons, ih]

theorem mapGet_buildGraph (tasks : List Task) (h : (keysOf tasks).Nodup)
    (T : Task) (hT : T ∈ tasks) :
    mapGet (buildDependencyGraph tasks) (taskKey T)
      = some ⟨dependentsOf tasks (taskKey T), T.dependencies, T⟩ := by
  rw [buildGraph_eq_opsFold, foldl_update_get]
  rw [foldl_mapSet_closed _ tasks [] (by simp) h]
  rw [List.nil_append]
  rw [mapGet_map_of_nodup _ tasks h T hT]
  simp [depOps_filter]

theorem buildGraph_keys (tasks : List Task) (h : (keysOf tasks).Nodup) :
    (buildDependencyGraph tasks).map (fun p => p.1) = keysOf tasks := by
  rw [buildGraph_eq_opsFold]
  have hfold : ∀ (ops : List (String × String)) (g : Graph),
      (ops.foldl (fun g p => mapUpdate g p.1
        (fun n => { n with dependents := n.dependents ++ [p.2] })) g).map
          (fun p => p.1) = g.map (fun p => p.1) := by
    intro ops
    induction ops with
    | nil => intro g; rfl
    | cons p ops ih =>
      intro g
      simp only [List.foldl_cons]
      rw [ih, mapUpdate_keys]
  rw [hfold]
  rw [foldl_mapSet_closed _ tasks [] (by simp) h]
  simp [keysOf]

theorem mapGet_buildGraph_none (tasks : List Task) (h : (keysOf tasks).Nodup)
    (k : String) :
    mapGet (buildDependencyGraph tasks) k = none ↔ k ∉ keysOf tasks := by
  rw [mapGet_eq_none_iff, buildGraph_keys tasks h]

theorem dependentsOf_mem (tasks : List Task) (k t : String) :
    t ∈ dependentsOf tasks k
      ↔ ∃ T ∈ tasks, taskKey T = t ∧ k ∈ T.dependencies := by
  unfold dependentsOf
  rw [List.mem_flatMap]
  constructor
  · rintro ⟨T, hT, hmem⟩
    rcases List.mem_replicate.mp hmem with ⟨hn, rfl⟩
    exact ⟨T, hT, rfl, List.count_pos_iff.mp (Nat.pos_of_ne_zero hn)⟩
  · rintro ⟨T, hT, rfl, hk⟩
    exact ⟨T, hT, List.mem_replicate.mpr
      ⟨Nat.pos_iff_ne_zero.mp (List.count_pos_iff.mpr hk), rfl⟩⟩

theorem dependentsOf_subset_keys (tasks : List Task) (k t : String)
    (h : t ∈ dependentsOf tasks k) : t ∈ keysOf tasks := by
  rcases (dependentsOf_mem tasks k t).mp h with ⟨T, hT, rfl, _⟩
  exact List.mem_map_of_mem taskKey hT

theorem dependentsOf_count_zero (tasks : List Task) (k x : String)
    (h : ∀ T ∈ tasks, taskKey T ≠ x) :
    (dependentsOf tasks k).count x = 0 := by
  induction tasks with
  | nil => rfl
  | cons T rest ih =>
    unfold dependentsOf
    simp only [List.flatMap_cons, List.count_append]
    have h1 : (List.replicate (T.dependencies.count k) (taskKey T)).count x = 0 := by
      rw [List.count_replicate]
      simp [h T (List.mem_cons_self T rest)]
    have h2 := ih (fun T' hT' => h T' (List.mem_cons_of_mem T hT'))
    unfold dependentsOf at h2
    omega

theorem dependentsOf_count (tasks : List Task) (h : (keysOf tasks).Nodup)
    (k : String) (T : Task) (hT : T ∈ tasks) :
    (dependentsOf tasks k).count (taskKey T) = T.dependencies.count k := by
  induction tasks with
  | nil => cases hT
  | cons T₀ rest ih =>
    have hnd : (∀ x ∈ rest, ¬ taskKey x = taskKey T₀)
        ∧ (List.map taskKey rest).Nodup := by
      simpa [keysOf] using h
    unfold dependentsOf
    simp only [List.flatMap_cons, List.count_append]
    rcases List.mem_cons.mp hT with rfl | hTrest
    · have h1 : (List.replicate (T.dependencies.count k) (taskKey T)).count (taskKey T)
          = T.dependencies.count k := by
        rw [List.count_replicate]; simp
      have h2 : (dependentsOf rest k).count (taskKey T) = 0 :=
        dependentsOf_count_zero rest k (taskKey T) hnd.1
      unfold dependentsOf at h2
      omega
    · have h1 : (List.replicate (T₀.dependencies.count k) (taskKey T₀)).count (taskKey T)
          = 0 := by
        rw [List.count_replicate]
        have : ¬ (taskKey T₀ = taskKey T) := fun hEq => hnd.1 T hTrest hEq.symm
        simp [this]
      have h2 := ih (by simpa [keysOf] using hnd.2) hTrest
      unfold dependentsOf at h2
      omega

/-- C10: under distinct task keys, the built graph has one node per task,
whose `dependencies` field is the task's declared list; `t` appears among
the `dependents` of node `d` exactly when some task with key `t` declares
`d`; and an id with no matching task has no node at all (dangling
dependency ids are silently ignored). -/
theorem buildDependencyGraph_spec (tasks : List Task)
    (h : (keysOf tasks).Nodup) :
    (∀ T ∈ tasks,
      mapGet (buildDependencyGraph tasks) (taskKey T)
        = some ⟨dependentsOf tasks (taskKey T), T.dependencies, T⟩)
    ∧ (∀ d n, mapGet (buildDependencyGraph tasks) d = some n →
        ∀ t, t ∈ n.dependents ↔ ∃ T ∈ tasks, taskKey T = t ∧ d ∈ T.dependencies)
    ∧ (∀ d, mapGet (buildDependencyGraph tasks) d = none ↔ d ∉ keysOf tasks) := by
  refine ⟨fun T hT => mapGet_buildGraph tasks h T hT, ?_, fun d => mapGet_buildGraph_none tasks h d⟩
  intro d n hget t
  have hd : d ∈ keysOf tasks := by
    by_contra hc
    rw [← mapGet_buildGraph_none tasks h d] at hc
    rw [hget] at hc
    cases hc
  rcases List.mem_map.mp hd with ⟨T₀, hT₀, rfl⟩
  rw [mapGet_buildGraph tasks h T₀ hT₀] at hget
  cases hget
  exact dependentsOf_mem tasks (taskKey T₀) t

/-- Witness for C10: a always-id list with a dangling dependency `"9"`. -/
theorem buildDependencyGraph_spec_witness :
    mapGet (buildDependencyGraph
      [⟨"1", "A", ["2", "9"]⟩, ⟨"2", "B", []⟩]) "9" = none :=
  ((buildDependencyGraph_spec [⟨"1", "A", ["2", "9"]⟩, ⟨"2", "B", []⟩]
    (by decide)).2.2 "9").mpr (by decide)

/-! ### Kahn's algorithm: invariants -/

/-- Number of dependency occurrences of `T` not yet covered by `order`
(dangling ids are never covered).  This is the value the in-degree map
stores for `T`'s key during the loop. -/
def degVal (T : Task) (order : List String) : Nat :=
  (T.dependencies.filter (fun d => decide (d ∉ order))).length

theorem degVal_nil (T : Task) : degVal T [] = T.dependencies.length := by
  simp [degVal]

theorem degVal_zero_iff (T : Task) (order : List String) :
    degVal T order = 0 ↔ ∀ d ∈ T.dependencies, d ∈ order := by
  simp [degVal, List.length_eq_zero, List.filter_eq_nil_iff]

theorem degVal_append (T : Task) (order : List String) (c : String)
    (hc : c ∉ order) :
    degVal T order = degVal T (order ++ [c]) + T.dependencies.count c := by
  unfold degVal
  induction T.dependencies with
  | nil => rfl
  | cons d ds ih =>
    rw [List.filter_cons, List.filter_cons, List.count_cons]
    by_cases hdo : d ∈ order
    · have hdc : ¬ d = c := fun hh => hc (hh ▸ hdo)
      have h1 : decide (d ∉ order) = false := by simp [hdo]
      have h2 : decide (d ∉ order ++ [c]) = false := by
        simp [List.mem_append, hdo]
      have h3 : (d == c) = false := by simp [hdc]
      rw [h1, h2, h3]
      simpa using ih
    · by_cases hdc : d = c
      · subst hdc
        have h1 : decide (d ∉ order) = true := by simp [hdo]
        have h2 : decide (d ∉ order ++ [d]) = false := by
          simp [List.mem_append]
        have h3 : (d == d) = true := by simp
        rw [h1, h2, h3]
        simp only [if_true, Bool.false_eq_true, if_false, List.length_cons]
        omega
      · have h1 : decide (d ∉ order) = true := by simp [hdo]
        have h2 : decide (d ∉ order ++ [c]) = true := by
          simp [List.mem_append, hdo, hdc]
        have h3 : (d == c) = false := by simp [hdc]
        rw [h1, h2, h3]
        simp only [if_true, Bool.false_eq_true, if_false, List.length_cons]
        omega

theorem degVal_append_le (T : Task) (order : List String) (c : String) :
    degVal T (order ++ [c]) ≤ degVal T order := by
  unfold degVal
  rw [← List.countP_eq_length_filter, ← List.countP_eq_length_filter]
  refine List.countP_mono_left ?_
  intro d _ hd
  simp only [decide_eq_true_eq] at hd ⊢
  intro hmem
  exact hd (List.mem_append_left _ hmem)

theorem count_le_degVal (T : Task) (order : List String) (c : String)
    (hc : c ∉ order) : T.dependencies.count c ≤ degVal T order := by
  unfold degVal
  induction T.dependencies with
  | nil => simp
  | cons d ds ih =>
    rw [List.count_cons, List.filter_cons]
    by_cases hdc : d = c
    · subst hdc
      have h1 : decide (d ∉ order) = true := by simp [hc]
      have h3 : (d == d) = true := by simp
      rw [h1, h3]
      simp only [if_true, List.length_cons]
      omega
    · have h3 : (d == c) = false := by simp [hdc]
      rw [h3]
      by_cases hdo : d ∈ order
      · have h1 : decide (d ∉ order) = false := by simp [hdo]
        rw [h1]
        simpa using ih
      · have h1 : decide (d ∉ order) = true := by simp [hdo]
        rw [h1]
        simp only [if_true, Bool.false_eq_true, if_false, List.length_cons]
        omega

theorem kdeg_mapSet (m : List (String × Int)) (k : String) (c v : Int)
    (h : mapGet m k = some c) :
    kdeg (mapSet m k v) + c.toNat = kdeg m + v.toNat := by
  induction m with
  | nil => cases h
  | cons p rest ih =>
    by_cases hp : p.1 = k
    · simp only [mapGet, if_pos hp] at h
      cases h
      simp only [mapSet, if_pos hp, kdeg, List.map_cons, List.sum_cons]
      omega
    · simp only [mapGet, if_neg hp] at h
      simp only [mapSet, if_neg hp, kdeg, List.map_cons, List.sum_cons]
      have := ih h
      simp only [kdeg] at this
      omega

theorem kahnStep_measure (s : List (String × Int) × List String) (d : String) :
    kdeg (kahnStep s d).1 + (kahnStep s d).2.length ≤ kdeg s.1 + s.2.length := by
  unfold kahnStep
  cases hg : mapGet s.1 d with
  | none => simp
  | some c =>
    have hk := kdeg_mapSet s.1 d c (c - 1) hg
    by_cases hc : c - 1 = 0
    · have hc1 : c = 1 := by omega
      subst hc1
      simp only [if_pos hc, List.length_append, List.length_singleton]
      simp only [show ((1 : Int) - 1).toNat = 0 from rfl, Int.toNat_one] at hk
      omega
    · have : (c - 1).toNat ≤ c.toNat := by omega
      simp only [if_neg hc]
      omega

theorem kahnFold_measure (l : List String) (s : List (String × Int) × List String) :
    kdeg (l.foldl kahnStep s).1 + (l.foldl kahnStep s).2.length
      ≤ kdeg s.1 + s.2.length := by
  induction l generalizing s with
  | nil => simp
  | cons d rest ih =>
    simp only [List.foldl_cons]
    exact le_trans (ih (kahnStep s d)) (kahnStep_measure s d)

/-- Loop invariant of `calculateExecutionOrder`:
the in-degree map stores `degVal` of every task; `order` and `queue` are
disjoint duplicate-free lists of task keys; a key is in `order` or `queue`
exactly when its task has no uncovered dependency occurrence; `order` is
topologically sorted. -/
structure KInv (tasks : List Task) (deg : List (String × Int))
    (queue order : List String) : Prop where
  degOk : ∀ T ∈ tasks, mapGet deg (taskKey T) = some (degVal T order : Int)
  orderN : order.Nodup
  queueN : queue.Nodup
  disj : ∀ x ∈ queue, x ∉ order
  orderK : ∀ x ∈ order, x ∈ keysOf tasks
  queueK : ∀ x ∈ queue, x ∈ keysOf tasks
  memIff : ∀ T ∈ tasks,
    ((taskKey T ∈ order ∨ taskKey T ∈ queue) ↔ degVal T order = 0)
  topo : ∀ l₁ t l₂, order = l₁ ++ t :: l₂ → ∀ T ∈ tasks, taskKey T = t →
    ∀ d ∈ T.dependencies, d ∈ l₁

/-- Invariant of the inner fold over the dependents of the task `c` being
finalized: `P` is the processed prefix of the dependents list. -/
def KFold (tasks : List Task) (_c : String) (order queue₀ : List String)
    (P : List String) (s : List (String × Int) × List String) : Prop :=
  (∀ T ∈ tasks, mapGet s.1 (taskKey T)
      = some ((degVal T order : Int) - P.count (taskKey T)))
  ∧ (∀ t, t ∈ s.2 ↔ (t ∈ queue₀ ∨ ∃ T ∈ tasks, taskKey T = t
      ∧ 0 < P.count t ∧ P.count t = degVal T order))
  ∧ s.2.Nodup
  ∧ (∀ t ∈ s.2, t ∈ keysOf tasks)

theorem kahn_fold_inv (tasks : List Task) (h : (keysOf tasks).Nodup)
    (c : String) (order queue₀ : List String)
    (hco : c ∉ order)
    (hMem : ∀ T ∈ tasks,
      ((taskKey T ∈ order ∨ taskKey T ∈ c :: queue₀) ↔ degVal T order = 0)) :
    ∀ (D₂ P : List String) (s : List (String × Int) × List String),
      dependentsOf tasks c = P ++ D₂ →
      KFold tasks c order queue₀ P s →
      KFold tasks c order queue₀ (P ++ D₂) (D₂.foldl kahnStep s) := by
  have keyInj : ∀ T ∈ tasks, ∀ T' ∈ tasks, taskKey T = taskKey T' → T = T' :=
    fun T hT T' hT' hk =>
      List.inj_on_of_nodup_map (by simpa [keysOf] using h) hT hT' hk
  intro D₂
  induction D₂ with
  | nil =>
    intro P s hD hF
    simpa using hF
  | cons t₀ D₂ ih =>
    intro P s hD hF
    obtain ⟨hdeg, hmem, hnod, hkeys⟩ := hF
    -- the head of the remaining dependents is a task key
    have ht₀D : t₀ ∈ dependentsOf tasks c := by
      rw [hD]; exact List.mem_append_right _ (List.mem_cons_self _ _)
    have ht₀K : t₀ ∈ keysOf tasks := dependentsOf_subset_keys tasks c t₀ ht₀D
    obtain ⟨T₀, hT₀, rfl⟩ := List.mem_map.mp ht₀K
    -- the running occurrence count is strictly below the current degree
    have hcnt : (dependentsOf tasks c).count (taskKey T₀)
        = T₀.dependencies.count c := dependentsOf_count tasks h c T₀ hT₀
    have hPb : P.count (taskKey T₀) + 1 ≤ T₀.dependencies.count c := by
      rw [← hcnt, hD, List.count_append, List.count_cons]
      simp
    have hvpos : P.count (taskKey T₀) < degVal T₀ order :=
      lt_of_lt_of_le (by omega) (count_le_degVal T₀ order c hco)
    have ht₀order : taskKey T₀ ∉ order := by
      intro hmem'
      have := (hMem T₀ hT₀).mp (Or.inl hmem')
      omega
    have ht₀cq : taskKey T₀ ∉ c :: queue₀ := by
      intro hmem'
      have := (hMem T₀ hT₀).mp (Or.inr hmem')
      omega
    have ht₀q : taskKey T₀ ∉ queue₀ := fun hh => ht₀cq (List.mem_cons_of_mem _ hh)
    have ht₀s : taskKey T₀ ∉ s.2 := by
      intro hin
      rcases (hmem _).mp hin with hq | ⟨T, hT, hk, hpos, hcount⟩
      · exact ht₀q hq
      · cases keyInj T hT T₀ hT₀ hk
        omega
    -- count bookkeeping for the extended prefix
    have hcount_app_self : ∀ Q : List String,
        (Q ++ [taskKey T₀]).count (taskKey T₀) = Q.count (taskKey T₀) + 1 := by
      intro Q; rw [List.count_append]; simp
    have hcount_app_ne : ∀ (Q : List String) t, ¬ t = taskKey T₀ →
        (Q ++ [taskKey T₀]).count t = Q.count t := by
      intro Q t hne
      rw [List.count_append, List.count_singleton']
      have : ¬ taskKey T₀ = t := fun hh => hne hh.symm
      simp [this]
    -- evaluate the step
    have hget : mapGet s.1 (taskKey T₀)
        = some ((degVal T₀ order : Int) - P.count (taskKey T₀)) := hdeg T₀ hT₀
    have hstep : kahnStep s (taskKey T₀)
        = (mapSet s.1 (taskKey T₀)
            (((degVal T₀ order : Int) - P.count (taskKey T₀)) - 1),
          if ((degVal T₀ order : Int) - P.count (taskKey T₀)) - 1 = 0
          then s.2 ++ [taskKey T₀] else s.2) := by
      unfold kahnStep
      rw [hget]
    have hD' : dependentsOf tasks c = (P ++ [taskKey T₀]) ++ D₂ := by
      rw [hD]; simp
    have hF' : KFold tasks c order queue₀ (P ++ [taskKey T₀])
        (kahnStep s (taskKey T₀)) := by
      rw [hstep]
      refine ⟨?_, ?_, ?_, ?_⟩
      · -- the stored in-degrees:
        intro T hT
        rw [mapGet_set]
        by_cases hk : taskKey T = taskKey T₀
        · have hTT : T = T₀ := keyInj T hT T₀ hT₀ hk
          subst hTT
          rw [if_pos rfl, hcount_app_self]
          congr 1
          push_cast
          ring
        · rw [if_neg hk, hdeg T hT, hcount_app_ne P (taskKey T) hk]
      · -- queue membership
        intro t
        by_cases hv : ((degVal T₀ order : Int) - P.count (taskKey T₀)) - 1 = 0
        · have hEq : degVal T₀ order = P.count (taskKey T₀) + 1 := by omega
          rw [if_pos hv]
          by_cases ht : t = taskKey T₀
          · subst ht
            constructor
            · intro _
              refine Or.inr ⟨T₀, hT₀, rfl, ?_, ?_⟩
              · rw [hcount_app_self]; omega
              · rw [hcount_app_self]; omega
            · intro _
              exact List.mem_append_right _ (List.mem_singleton.mpr rfl)
          · have hc1 := hcount_app_ne P t ht
            constructor
            · intro hin
              rcases List.mem_append.mp hin with hin | hin
              · rcases (hmem t).mp hin with hq | ⟨T, hT, hk, hpos, hcnt'⟩
                · exact Or.inl hq
                · exact Or.inr ⟨T, hT, hk, by rw [hc1]; exact hpos,
                    by rw [hc1]; exact hcnt'⟩
              · exact absurd (List.mem_singleton.mp hin) ht
            · intro hin
              rcases hin with hq | ⟨T, hT, hk, hpos, hcnt'⟩
              · exact List.mem_append_left _ ((hmem t).mpr (Or.inl hq))
              · rw [hc1] at hpos hcnt'
                exact List.mem_append_left _
                  ((hmem t).mpr (Or.inr ⟨T, hT, hk, hpos, hcnt'⟩))
        · have hNe : degVal T₀ order ≠ P.count (taskKey T₀) + 1 := by
            intro hh
            apply hv
            omega
          rw [if_neg hv]
          by_cases ht : t = taskKey T₀
          · subst ht
            constructor
            · intro hin
              exact absurd hin ht₀s
            · intro hin
              rcases hin with hq | ⟨T, hT, hk, hpos, hcnt'⟩
              · exact absurd hq ht₀q
              · have hTT : T = T₀ := keyInj T hT T₀ hT₀ hk
                subst hTT
                rw [hcount_app_self] at hcnt'
                exact absurd hcnt'.symm hNe
          · have hc1 := hcount_app_ne P t ht
            constructor
            · intro hin
              rcases (hmem t).mp hin with hq | ⟨T, hT, hk, hpos, hcnt'⟩
              · exact Or.inl hq
              · exact Or.inr ⟨T, hT, hk, by rw [hc1]; exact hpos,
                  by rw [hc1]; exact hcnt'⟩
            · intro hin
              rcases hin with hq | ⟨T, hT, hk, hpos, hcnt'⟩
              · exact (hmem t).mpr (Or.inl hq)
              · rw [hc1] at hpos hcnt'
                exact (hmem t).mpr (Or.inr ⟨T, hT, hk, hpos, hcnt'⟩)
      · -- queue nodup
        by_cases hv : ((degVal T₀ order : Int) - P.count (taskKey T₀)) - 1 = 0
        · rw [if_pos hv]
          simpa [List.nodup_append] using ⟨hnod, ht₀s⟩
        · rw [if_neg hv]; exact hnod
      · -- queue elements are keys
        intro t hin
        by_cases hv : ((degVal T₀ order : Int) - P.count (taskKey T₀)) - 1 = 0
        · rw [if_pos hv] at hin
          rcases List.mem_append.mp hin with hin | hin
          · exact hkeys t hin
          · exact (List.mem_singleton.mp hin) ▸ ht₀K
        · rw [if_neg hv] at hin
          exact hkeys t hin
    have hres := ih (P ++ [taskKey T₀]) (kahnStep s (taskKey T₀)) hD' hF'
    rw [show (P ++ [taskKey T₀]) ++ D₂ = P ++ taskKey T₀ :: D₂ by simp] at hres
    simpa using hres
theorem getDependentTasks_eq (tasks : List Task) (h : (keysOf tasks).Nodup)
    (c : String) (hc : c ∈ keysOf tasks) :
    getDependentTasks c (buildDependencyGraph tasks) = dependentsOf tasks c := by
  obtain ⟨T, hT, rfl⟩ := List.mem_map.mp hc
  unfold getDependentTasks
  rw [mapGet_buildGraph tasks h T hT]

theorem append_singleton_split (l : List String) (c : String)
    (l₁ : List String) (t : String) (l₂ : List String)
    (hEq : l ++ [c] = l₁ ++ t :: l₂) :
    (l₂ = [] ∧ l₁ = l ∧ t = c)
    ∨ (∃ l₂', l₂ = l₂' ++ [c] ∧ l = l₁ ++ t :: l₂') := by
  rcases List.eq_nil_or_concat l₂ with rfl | ⟨l₂', c', rfl⟩
  · left
    have h2 := List.append_inj' hEq (by simp)
    refine ⟨rfl, h2.1.symm, ?_⟩
    have := h2.2
    simp only [List.cons.injEq] at this
    exact this.1.symm
  · right
    rw [List.concat_eq_append] at hEq
    have hEq' : l ++ [c] = (l₁ ++ t :: l₂') ++ [c'] := by
      rw [hEq]; simp
    have h2 := List.append_inj' hEq' (by simp)
    have hc' : c = c' := by
      have := h2.2
      simp only [List.cons.injEq] at this
      exact this.1
    exact ⟨l₂', by rw [List.concat_eq_append, hc'], h2.1⟩

theorem kahn_iter (tasks : List Task) (h : (keysOf tasks).Nodup)
    (deg : List (String × Int)) (c : String) (queue order : List String)
    (inv : KInv tasks deg (c :: queue) order) :
    KInv tasks
      ((getDependentTasks c (buildDependencyGraph tasks)).foldl
        kahnStep (deg, queue)).1
      ((getDependentTasks c (buildDependencyGraph tasks)).foldl
        kahnStep (deg, queue)).2
      (order ++ [c]) := by
  have keyInj : ∀ T ∈ tasks, ∀ T' ∈ tasks, taskKey T = taskKey T' → T = T' :=
    fun T hT T' hT' hk =>
      List.inj_on_of_nodup_map (by simpa [keysOf] using h) hT hT' hk
  have hcK : c ∈ keysOf tasks := inv.queueK c (List.mem_cons_self _ _)
  have hco : c ∉ order := inv.disj c (List.mem_cons_self _ _)
  rw [getDependentTasks_eq tasks h c hcK]
  have hF0 : KFold tasks c order queue [] (deg, queue) := by
    refine ⟨?_, ?_, ?_, ?_⟩
    · intro T hT
      rw [inv.degOk T hT]
      simp
    · intro t
      constructor
      · intro ht; exact Or.inl ht
      · rintro (ht | ⟨T, hT, hk, hpos, _⟩)
        · exact ht
        · simp at hpos
    · exact (List.nodup_cons.mp inv.queueN).2
    · intro t ht; exact inv.queueK t (List.mem_cons_of_mem _ ht)
  have hFold := kahn_fold_inv tasks h c order queue hco inv.memIff
    (dependentsOf tasks c) [] (deg, queue) (by simp) hF0
  rw [List.nil_append] at hFold
  obtain ⟨hdeg, hmem, hnod, hkeys⟩ := hFold
  obtain ⟨Tc, hTc, hkc⟩ := List.mem_map.mp hcK
  have hdc : degVal Tc order = 0 :=
    (inv.memIff Tc hTc).mp (Or.inr (hkc ▸ List.mem_cons_self _ _))
  have hcq_nodup := List.nodup_cons.mp inv.queueN
  refine ⟨?_, ?_, hnod, ?_, ?_, hkeys, ?_, ?_⟩
  · -- degOk
    intro T hT
    have hDc : (dependentsOf tasks c).count (taskKey T)
        = T.dependencies.count c := dependentsOf_count tasks h c T hT
    rw [hdeg T hT, hDc]
    have hApp := degVal_append T order c hco
    congr 1
    omega
  · -- order nodup
    simpa [List.nodup_append] using ⟨inv.orderN, hco⟩
  · -- disjointness
    intro x hx
    rcases (hmem x).mp hx with hq | ⟨T, hT, hk, hpos, hcount⟩
    · intro hmem'
      rcases List.mem_append.mp hmem' with hmem' | hmem'
      · exact inv.disj x (List.mem_cons_of_mem _ hq) hmem'
      · exact hcq_nodup.1 ((List.mem_singleton.mp hmem') ▸ hq)
    · have hnz : degVal T order ≠ 0 := by omega
      have := (inv.memIff T hT)
      rw [hk] at this
      intro hmem'
      rcases List.mem_append.mp hmem' with hmem' | hmem'
      · exact hnz (this.mp (Or.inl hmem'))
      · exact hnz (this.mp (Or.inr
          ((List.mem_singleton.mp hmem') ▸ List.mem_cons_self _ _)))
  · -- order keys
    intro x hx
    rcases List.mem_append.mp hx with hx | hx
    · exact inv.orderK x hx
    · exact (List.mem_singleton.mp hx) ▸ hcK
  · -- memIff
    intro T hT
    have hDc : (dependentsOf tasks c).count (taskKey T)
        = T.dependencies.count c := dependentsOf_count tasks h c T hT
    have hApp := degVal_append T order c hco
    constructor
    · rintro (hx | hx)
      · rcases List.mem_append.mp hx with hx | hx
        · have h0 := (inv.memIff T hT).mp (Or.inl hx)
          have := degVal_append_le T order c
          omega
        · have hTT : T = Tc :=
            keyInj T hT Tc hTc ((List.mem_singleton.mp hx).trans hkc.symm)
          subst hTT
          have := degVal_append_le T order c
          omega
      · rcases (hmem (taskKey T)).mp hx with hq | ⟨T', hT', hk, hpos, hcount⟩
        · have h0 := (inv.memIff T hT).mp (Or.inr (List.mem_cons_of_mem _ hq))
          have := degVal_append_le T order c
          omega
        · have hTT : T' = T := keyInj T' hT' T hT hk
          subst hTT
          omega
    · intro h0
      by_cases hz : T.dependencies.count c = 0
      · have hdz : degVal T order = 0 := by omega
        rcases (inv.memIff T hT).mpr hdz with hx | hx
        · exact Or.inl (List.mem_append_left _ hx)
        · rcases List.mem_cons.mp hx with hx | hx
          · exact Or.inl (List.mem_append_right _ (List.mem_singleton.mpr hx))
          · exact Or.inr ((hmem (taskKey T)).mpr (Or.inl hx))
      · refine Or.inr ((hmem (taskKey T)).mpr (Or.inr ⟨T, hT, rfl, ?_, ?_⟩))
        · rw [hDc]; omega
        · rw [hDc]; omega
  · -- topo
    intro l₁ t l₂ hsplit T hT hk d hd
    rcases append_singleton_split order c l₁ t l₂ hsplit with
      ⟨rfl, rfl, rfl⟩ | ⟨l₂', rfl, horder⟩
    · have hTT : T = Tc := keyInj T hT Tc hTc (hk.trans hkc.symm)
      subst hTT
      exact (degVal_zero_iff T _).mp hdc d hd
    · exact inv.topo l₁ t l₂' horder T hT hk d hd

/-- What holds of the produced order when the loop terminates with an empty
queue: duplicate-free task keys, topologically sorted, and every omitted
task still has an uncovered dependency occurrence. -/
def KFinal (tasks : List Task) (order : List String) : Prop :=
  order.Nodup ∧ (∀ x ∈ order, x ∈ keysOf tasks)
  ∧ (∀ l₁ t l₂, order = l₁ ++ t :: l₂ → ∀ T ∈ tasks, taskKey T = t →
      ∀ d ∈ T.dependencies, d ∈ l₁)
  ∧ (∀ T ∈ tasks, taskKey T ∉ order → degVal T order ≠ 0)

theorem kahnLoop_final (tasks : List Task) (h : (keysOf tasks).Nodup) :
    ∀ (fuel : Nat) (deg : List (String × Int)) (queue order : List String),
      KInv tasks deg queue order → kdeg deg + queue.length < fuel →
      KFinal tasks
        (kahnLoop (buildDependencyGraph tasks) fuel deg queue order) := by
  intro fuel
  induction fuel with
  | zero => intro deg queue order _ hlt; omega
  | succ fuel ih =>
    intro deg queue order inv hlt
    cases queue with
    | nil =>
      refine ⟨inv.orderN, inv.orderK, inv.topo, ?_⟩
      intro T hT hno h0
      exact hno (((inv.memIff T hT).mpr h0).resolve_right (by simp))
    | cons c queue =>
      have hstep := kahn_iter tasks h deg c queue order inv
      have hmeas : kdeg ((getDependentTasks c (buildDependencyGraph tasks)).foldl
            kahnStep (deg, queue)).1
          + ((getDependentTasks c (buildDependencyGraph tasks)).foldl
            kahnStep (deg, queue)).2.length
          ≤ kdeg deg + queue.length := by
        simpa using kahnFold_measure
          (getDependentTasks c (buildDependencyGraph tasks)) (deg, queue)
      refine ih _ _ _ hstep ?_
      simp only [List.length_cons] at hlt
      omega

theorem kahn_init (tasks : List Task) (h : (keysOf tasks).Nodup) :
    KInv tasks
      (tasks.foldl
        (fun m t => mapSet m (taskKey t) ((t.dependencies.length : Int))) [])
      (((tasks.foldl
        (fun m t => mapSet m (taskKey t) ((t.dependencies.length : Int)))
          []).filter (fun p => p.2 = 0)).map (fun p => p.1))
      [] := by
  have keyInj : ∀ T ∈ tasks, ∀ T' ∈ tasks, taskKey T = taskKey T' → T = T' :=
    fun T hT T' hT' hk =>
      List.inj_on_of_nodup_map (by simpa [keysOf] using h) hT hT' hk
  have hclosed := foldl_mapSet_closed
    (fun t => ((t.dependencies.length : Int))) tasks [] (by simp) h
  rw [List.nil_append] at hclosed
  rw [hclosed]
  have hkeysL : (tasks.map
      (fun t => (taskKey t, (t.dependencies.length : Int)))).map (fun p => p.1)
      = keysOf tasks := by
    simp [keysOf]
  refine ⟨?_, List.nodup_nil, ?_, ?_, ?_, ?_, ?_, ?_⟩
  · intro T hT
    rw [mapGet_map_of_nodup _ tasks h T hT, degVal_nil]
  · -- queue nodup
    have hsub : (((tasks.map (fun t => (taskKey t, (t.dependencies.length : Int)))).filter
        (fun p => p.2 = 0)).map (fun p => p.1)).Sublist
        ((tasks.map (fun t => (taskKey t, (t.dependencies.length : Int)))).map
          (fun p => p.1)) :=
      List.Sublist.map _ (List.filter_sublist _)
    rw [hkeysL] at hsub
    exact List.Nodup.sublist hsub h
  · intro x _
    simp
  · intro x hx
    cases hx
  · -- queue elements are keys
    intro x hx
    rcases List.mem_map.mp hx with ⟨p, hp, rfl⟩
    have := List.mem_of_mem_filter hp
    rcases List.mem_map.mp this with ⟨T, hT, rfl⟩
    exact List.mem_map_of_mem taskKey hT
  · -- memIff
    intro T hT
    rw [degVal_nil]
    constructor
    · rintro (hx | hx)
      · cases hx
      · rcases List.mem_map.mp hx with ⟨p, hp, hpk⟩
        have hpL := List.mem_of_mem_filter hp
        rcases List.mem_map.mp hpL with ⟨T', hT', rfl⟩
        have hTT : T' = T := keyInj T' hT' T hT hpk
        subst hTT
        have := List.of_mem_filter hp
        simpa using this
    · intro h0
      refine Or.inr ?_
      refine List.mem_map.mpr ⟨(taskKey T, (T.dependencies.length : Int)), ?_, rfl⟩
      refine List.mem_filter.mpr ⟨List.mem_map_of_mem _ hT, ?_⟩
      simp [h0]
  · intro l₁ t l₂ hsplit
    cases l₁ <;> simp at hsplit

theorem kahn_final (tasks : List Task) (h : (keysOf tasks).Nodup) :
    KFinal tasks (calculateExecutionOrder tasks (buildDependencyGraph tasks)) := by
  unfold calculateExecutionOrder
  exact kahnLoop_final tasks h _ _ _ _ (kahn_init tasks h) (by omega)

/-! ### Cycles and the correctness of `validateDependencies` -/

/-- `depOn tasks a b`: the task keyed `a` declares `b` as a dependency. -/
def depOn (tasks : List Task) (a b : String) : Prop :=
  ∃ T ∈ tasks, taskKey T = a ∧ b ∈ T.dependencies

/-- The task list contains a dependency cycle. -/
def hasCycle (tasks : List Task) : Prop :=
  ∃ t, Relation.TransGen (depOn tasks) t t

/-- Every declared dependency refers to a task of the list. -/
def closedDeps (tasks : List Task) : Prop :=
  ∀ T ∈ tasks, ∀ d ∈ T.dependencies, d ∈ keysOf tasks

theorem indexOf_lt_of_mem_left (l₁ : List String) (a : String)
    (l₂ : List String) (b : String)
    (hnd : (l₁ ++ a :: l₂).Nodup) (hb : b ∈ l₁) :
    (l₁ ++ a :: l₂).indexOf b < (l₁ ++ a :: l₂).indexOf a := by
  induction l₁ with
  | nil => cases hb
  | cons x l₁ ih =>
    rw [List.cons_append] at hnd ⊢
    have hnd' := List.nodup_cons.mp hnd
    rcases List.mem_cons.mp hb with rfl | hb'
    · have hax : ¬ b = a := fun hh =>
        hnd'.1 (hh ▸ List.mem_append_right _ (List.mem_cons_self _ _))
      rw [List.indexOf_cons, List.indexOf_cons]
      have hba : (b == a) = false := by simp [hax]
      rw [hba]
      simp
    · have hxb : ¬ x = b := fun hh =>
        hnd'.1 (hh ▸ List.mem_append_left _ hb')
      have hxa : ¬ x = a := fun hh =>
        hnd'.1 (hh ▸ List.mem_append_right _ (List.mem_cons_self _ _))
      rw [List.indexOf_cons, List.indexOf_cons]
      have hbb : (x == b) = false := by simp [hxb]
      have hba : (x == a) = false := by simp [hxa]
      rw [hbb, hba]
      simp only [cond_false]
      have := ih hnd'.2 hb'
      omega

theorem depOn_rank (tasks : List Task) (order : List String)
    (hfin : KFinal tasks order) (a b : String)
    (hab : depOn tasks a b) (ha : a ∈ order) :
    b ∈ order ∧ order.indexOf b < order.indexOf a := by
  obtain ⟨T, hT, rfl, hbdep⟩ := hab
  obtain ⟨l₁, l₂, hsplit⟩ := List.append_of_mem ha
  have hbl₁ : b ∈ l₁ := hfin.2.2.1 l₁ (taskKey T) l₂ hsplit T hT rfl b hbdep
  rw [hsplit]
  exact ⟨List.mem_append_left _ hbl₁,
    indexOf_lt_of_mem_left l₁ _ l₂ b (hsplit ▸ hfin.1) hbl₁⟩

theorem transGen_rank (tasks : List Task) (order : List String)
    (hfin : KFinal tasks order) (a b : String)
    (hab : Relation.TransGen (depOn tasks) a b) (ha : a ∈ order) :
    b ∈ order ∧ order.indexOf b < order.indexOf a := by
  induction hab with
  | single h => exact depOn_rank tasks order hfin _ _ h ha
  | tail _ h ih =>
    have h1 := ih
    have h2 := depOn_rank tasks order hfin _ _ h h1.1
    exact ⟨h2.1, lt_trans h2.2 h1.2⟩

theorem cycle_not_in_order (tasks : List Task) (order : List String)
    (hfin : KFinal tasks order) (t : String)
    (hcyc : Relation.TransGen (depOn tasks) t t) : t ∉ order := by
  intro ht
  exact lt_irrefl _ (transGen_rank tasks order hfin t t hcyc ht).2

theorem transGen_first_edge (tasks : List Task) (a b : String)
    (h : Relation.TransGen (depOn tasks) a b) : ∃ c, depOn tasks a c := by
  induction h using Relation.TransGen.head_induction_on with
  | base h => exact ⟨_, h⟩
  | ih h _ _ => exact ⟨_, h⟩

theorem cycle_mem_keys (tasks : List Task) (t : String)
    (hcyc : Relation.TransGen (depOn tasks) t t) : t ∈ keysOf tasks := by
  obtain ⟨c, T, hT, rfl, _⟩ := transGen_first_edge tasks t t hcyc
  exact List.mem_map_of_mem taskKey hT

theorem length_lt_of_missing (order keys : List String)
    (hnd : order.Nodup) (hk : keys.Nodup)
    (hsub : ∀ x ∈ order, x ∈ keys) (t : String)
    (ht : t ∈ keys) (hto : t ∉ order) : order.length < keys.length := by
  have h1 : order.toFinset ⊂ keys.toFinset := by
    rw [Finset.ssubset_def]
    constructor
    · intro x hx
      exact List.mem_toFinset.mpr (hsub x (List.mem_toFinset.mp hx))
    · intro hsup
      exact hto (List.mem_toFinset.mp (hsup (List.mem_toFinset.mpr ht)))
  have := Finset.card_lt_card h1
  rwa [List.toFinset_card_of_nodup hnd, List.toFinset_card_of_nodup hk] at this

theorem kahn_complete (tasks : List Task) (h : (keysOf tasks).Nodup)
    (hclosed : closedDeps tasks) (hacyc : ¬ hasCycle tasks) :
    ∀ T ∈ tasks, taskKey T ∈
      calculateExecutionOrder tasks (buildDependencyGraph tasks) := by
  set order := calculateExecutionOrder tasks (buildDependencyGraph tasks)
    with horder
  have hfin := kahn_final tasks h
  rw [← horder] at hfin
  by_contra hc
  push_neg at hc
  obtain ⟨T, hT, hTo⟩ := hc
  have hstep : ∀ a, (a ∈ keysOf tasks ∧ a ∉ order) →
      ∃ b, (b ∈ keysOf tasks ∧ b ∉ order) ∧ depOn tasks a b := by
    rintro a ⟨haK, haO⟩
    obtain ⟨T', hT', rfl⟩ := List.mem_map.mp haK
    have hnz := hfin.2.2.2 T' hT' haO
    have hex : ∃ d ∈ T'.dependencies, d ∉ order := by
      by_contra hall
      push_neg at hall
      exact hnz ((degVal_zero_iff T' order).mpr hall)
    obtain ⟨d, hd, hdo⟩ := hex
    exact ⟨d, ⟨hclosed T' hT' d hd, hdo⟩, ⟨T', hT', rfl, hd⟩⟩
  choose! f hf using hstep
  have ha₀ : taskKey T ∈ keysOf tasks ∧ taskKey T ∉ order :=
    ⟨List.mem_map_of_mem _ hT, hTo⟩
  have hgP : ∀ n, f^[n] (taskKey T) ∈ keysOf tasks
      ∧ f^[n] (taskKey T) ∉ order := by
    intro n
    induction n with
    | zero => exact ha₀
    | succ n ih =>
      rw [Function.iterate_succ_apply']
      exact (hf _ ih).1
  have hgE : ∀ n, depOn tasks (f^[n] (taskKey T)) (f^[n + 1] (taskKey T)) := by
    intro n
    rw [Function.iterate_succ_apply']
    exact (hf _ (hgP n)).2
  have hgT : ∀ n m, n < m →
      Relation.TransGen (depOn tasks) (f^[n] (taskKey T)) (f^[m] (taskKey T)) := by
    intro n m hnm
    induction m with
    | zero => omega
    | succ m ih =>
      rcases Nat.lt_succ_iff_lt_or_eq.mp hnm with h1 | rfl
      · exact (ih h1).tail (hgE m)
      · exact Relation.TransGen.single (hgE n)
  have hmaps : ∀ i ∈ Finset.range ((keysOf tasks).length + 1),
      f^[i] (taskKey T) ∈ (keysOf tasks).toFinset :=
    fun i _ => List.mem_toFinset.mpr (hgP i).1
  have hcard : ((keysOf tasks).toFinset).card
      < (Finset.range ((keysOf tasks).length + 1)).card := by
    rw [Finset.card_range, List.toFinset_card_of_nodup h]
    omega
  obtain ⟨i, _, j, _, hne, hEqij⟩ :=
    Finset.exists_ne_map_eq_of_card_lt_of_maps_to hcard hmaps
  rcases Nat.lt_or_ge i j with hij | hij
  · exact hacyc ⟨f^[i] (taskKey T), hEqij ▸ hgT i j hij⟩
  · have hij' : j < i := lt_of_le_of_ne hij (Ne.symm hne)
    exact hacyc ⟨f^[j] (taskKey T), hEqij ▸ hgT j i hij'⟩

theorem kahn_complete_length (tasks : List Task) (h : (keysOf tasks).Nodup)
    (hclosed : closedDeps tasks) (hacyc : ¬ hasCycle tasks) :
    (calculateExecutionOrder tasks (buildDependencyGraph tasks)).length
      = tasks.length := by
  set order := calculateExecutionOrder tasks (buildDependencyGraph tasks)
    with horder
  have hfin := kahn_final tasks h
  rw [← horder] at hfin
  have hcomp := kahn_complete tasks h hclosed hacyc
  rw [← horder] at hcomp
  have hext : order.toFinset = (keysOf tasks).toFinset := by
    refine Finset.ext fun x => ⟨?_, ?_⟩
    · intro hx
      exact List.mem_toFinset.mpr (hfin.2.1 x (List.mem_toFinset.mp hx))
    · intro hx
      obtain ⟨T, hT, rfl⟩ := List.mem_map.mp (List.mem_toFinset.mp hx)
      exact List.mem_toFinset.mpr (hcomp T hT)
  have hcards := congrArg Finset.card hext
  rw [List.toFinset_card_of_nodup hfin.1, List.toFinset_card_of_nodup h] at hcards
  simpa [keysOf] using hcards

theorem kahn_cycle_short (tasks : List Task) (h : (keysOf tasks).Nodup)
    (hcyc : hasCycle tasks) :
    (calculateExecutionOrder tasks (buildDependencyGraph tasks)).length
      < tasks.length := by
  obtain ⟨t, ht⟩ := hcyc
  have hfin := kahn_final tasks h
  have h1 := cycle_not_in_order tasks _ hfin t ht
  have h2 := cycle_mem_keys tasks t ht
  have := length_lt_of_missing _ (keysOf tasks) hfin.1 h hfin.2.1 t h2 h1
  simpa [keysOf] using this

theorem kahn_dangling_short (tasks : List Task) (h : (keysOf tasks).Nodup)
    (T : Task) (hT : T ∈ tasks) (d : String) (hd : d ∈ T.dependencies)
    (hdK : d ∉ keysOf tasks) :
    (calculateExecutionOrder tasks (buildDependencyGraph tasks)).length
      < tasks.length := by
  have hfin := kahn_final tasks h
  have hTo : taskKey T ∉ calculateExecutionOrder tasks (buildDependencyGraph tasks) := by
    intro hin
    obtain ⟨l₁, l₂, hsplit⟩ := List.append_of_mem hin
    have hdl₁ : d ∈ l₁ := hfin.2.2.1 l₁ (taskKey T) l₂ hsplit T hT rfl d hd
    have : d ∈ calculateExecutionOrder tasks (buildDependencyGraph tasks) := by
      rw [hsplit]
      exact List.mem_append_left _ hdl₁
    exact hdK (hfin.2.1 d this)
  have := length_lt_of_missing _ (keysOf tasks) hfin.1 h hfin.2.1
    (taskKey T) (List.mem_map_of_mem taskKey hT) hTo
  simpa [keysOf] using this

theorem hasCycle_single_false (i ttl dep : String) (hid : ¬ i = "")
    (hne : ¬ dep = i) : ¬ hasCycle [⟨i, ttl, [dep]⟩] := by
  rintro ⟨t, ht⟩
  have hedge : ∀ a b, depOn [⟨i, ttl, [dep]⟩] a b → a = i ∧ b = dep := by
    rintro a b ⟨T, hT, rfl, hd⟩
    have hTT : T = ⟨i, ttl, [dep]⟩ := List.mem_singleton.mp hT
    subst hTT
    constructor
    · simp [taskKey, hid]
    · simpa using hd
  have hend : ∀ a b, Relation.TransGen (depOn [⟨i, ttl, [dep]⟩]) a b
      → b = dep := by
    intro a b hab
    induction hab with
    | single h => exact (hedge _ _ h).2
    | tail _ h _ => exact (hedge _ _ h).2
  have hstart : ∀ a b, Relation.TransGen (depOn [⟨i, ttl, [dep]⟩]) a b
      → a = i := by
    intro a b hab
    induction hab using Relation.TransGen.head_induction_on with
    | base h => exact (hedge _ _ h).1
    | ih h _ _ => exact (hedge _ _ h).1
  have h1 := hstart t t ht
  have h2 := hend t t ht
  exact hne (by rw [← h2, h1])

/-- C3 (amended): for a task list with distinct keys, if every declared
dependency names a task and no cycle exists, Kahn's order covers every task
and validation succeeds; if a cycle exists, the order is strictly shorter,
validation reports `{valid: false, cycleDetected: true}`, and every task on
a cycle is omitted from the produced order. -/
theorem validateDependencies_correct (tasks : List Task)
    (h : (keysOf tasks).Nodup) :
    (closedDeps tasks → ¬ hasCycle tasks →
      (calculateExecutionOrder tasks (buildDependencyGraph tasks)).length
          = tasks.length
      ∧ validateDependencies tasks = ⟨true, false⟩)
    ∧ (hasCycle tasks →
      (calculateExecutionOrder tasks (buildDependencyGraph tasks)).length
          < tasks.length
      ∧ validateDependencies tasks = ⟨false, true⟩
      ∧ ∀ t, Relation.TransGen (depOn tasks) t t →
          t ∉ calculateExecutionOrder tasks (buildDependencyGraph tasks)) := by
  constructor
  · intro hcl hac
    have hlen := kahn_complete_length tasks h hcl hac
    exact ⟨hlen, by simp [validateDependencies, hlen]⟩
  · intro hcyc
    have hlen := kahn_cycle_short tasks h hcyc
    have hne : (calculateExecutionOrder tasks (buildDependencyGraph tasks)).length
        ≠ tasks.length := Nat.ne_of_lt hlen
    refine ⟨hlen, by simp [validateDependencies, hne], ?_⟩
    intro t ht
    exact cycle_not_in_order tasks _ (kahn_final tasks h) t ht

/-- C3 (counterexample): the one-task list `1({2})` is acyclic, yet the
produced order is shorter than the task count and validation fails with
`cycleDetected = true`, contradicting the claim's acyclic case. -/
theorem validateDependencies_acyclic_counterexample :
    ¬ hasCycle [⟨"1", "T", ["2"]⟩]
    ∧ validateDependencies [⟨"1", "T", ["2"]⟩]
        = { valid := false, cycleDetected := true }
    ∧ (calculateExecutionOrder [⟨"1", "T", ["2"]⟩]
        (buildDependencyGraph [⟨"1", "T", ["2"]⟩])).length = 0
    ∧ ([⟨"1", "T", ["2"]⟩] : List Task).length = 1 :=
  ⟨hasCycle_single_false "1" "T" "2" (by decide) (by decide),
   by decide, by decide, rfl⟩

/-- Witness for C3 at the two-task cycle `1({2}), 2({1})`. -/
theorem validateDependencies_correct_witness :
    validateDependencies cycleTasks = { valid := false, cycleDetected := true } := by
  have e12 : depOn cycleTasks "1" "2" :=
    ⟨⟨"1", "Task 1", ["2"]⟩, by simp [cycleTasks], by decide, by decide⟩
  have e21 : depOn cycleTasks "2" "1" :=
    ⟨⟨"2", "Task 2", ["1"]⟩, by simp [cycleTasks], by decide, by decide⟩
  have hcyc : hasCycle cycleTasks :=
    ⟨"1", Relation.TransGen.tail (Relation.TransGen.single e12) e21⟩
  exact ((validateDependencies_correct cycleTasks (by decide)).2 hcyc).2.1

/-- C4 (amended): a dependency id with no matching task makes
`validateDependencies` fail, but it is reported as `cycleDetected = true` —
the code has no distinct unknown-dependency error kind. -/
theorem validateDependencies_unknown_dependency (tasks : List Task)
    (h : (keysOf tasks).Nodup) (T : Task) (hT : T ∈ tasks)
    (d : String) (hd : d ∈ T.dependencies) (hdK : d ∉ keysOf tasks) :
    validateDependencies tasks = { valid := false, cycleDetected := true } := by
  have hlen := kahn_dangling_short tasks h T hT d hd hdK
  have hne : (calculateExecutionOrder tasks (buildDependencyGraph tasks)).length
      ≠ tasks.length := Nat.ne_of_lt hlen
  simp [validateDependencies, hne]

/-- C4 (counterexample): for the dangling reference `a({b})` the result is
`{valid: false, cycleDetected: true}` although no cycle exists — the code
reports a dangling reference as a cycle, with no `UnknownDependency`
distinction. -/
theorem validateDependencies_dangling_counterexample :
    ¬ hasCycle [⟨"a", "A", ["b"]⟩]
    ∧ validateDependencies [⟨"a", "A", ["b"]⟩]
        = { valid := false, cycleDetected := true } :=
  ⟨hasCycle_single_false "a" "A" "b" (by decide) (by decide), by decide⟩

/-- Witness for C4 at the dangling input. -/
theorem validateDependencies_unknown_dependency_witness :
    validateDependencies [⟨"a", "A", ["b"]⟩]
      = { valid := false, cycleDetected := true } :=
  validateDependencies_unknown_dependency [⟨"a", "A", ["b"]⟩] (by decide)
    ⟨"a", "A", ["b"]⟩ (by decide) "b" (by decide) (by decide)

/-! ### `skills/goal-alignment-monitor/lib/checkers.js` -/

/-- An issue as pushed by an individual checker. -/
structure Issue where
  message : String
  severity : String
  location : Option String := none
  deriving Repr, DecidableEq

/-- An issue as aggregated by `combineResults` (category added,
`severity || 'warning'` applied). -/
structure AggIssue where
  category : String
  message : String
  severity : String
  location : Option String
  deriving Repr, DecidableEq

/-- The `{passed, issues, critical}` record returned by every checker
(`TestingChecker` also returns `coverage`). -/
structure CheckResult where
  passed : Bool
  issues : List Issue
  critical : Bool
  coverage : Option Int := none
  deriving Repr, DecidableEq

/-- The aggregate returned by `combineResults`. -/
structure AlignmentResult where
  passed : Bool
  issues : List AggIssue
  critical : Bool
  details : List (String × CheckResult)
  deriving Repr, DecidableEq

/-- `tests.security`: absent fields are falsy, hence plain `Bool`s. -/
structure SecurityResults where
  hardcodedSecrets : Bool := false
  sqlInjectionRisk : Bool := false
  xssRisk : Bool := false
  usesJWT : Bool := false
  usesBcrypt : Bool := false
  secretLocations : Option String := none
  deriving Repr, DecidableEq

/-- `tests.performance`: the code reads the fields through `|| 0`, so an
absent field is identical to `0`. -/
structure PerfResults where
  avgResponseTime : Int := 0
  concurrentCapacity : Int := 0
  deriving Repr, DecidableEq

/-- The `tests` argument.  `coverage` and `failed` are read through
`|| 0` / `> 0` (absent behaves as 0); `unitTests`/`integrationTests`/
`e2eTests` are compared with `=== 0`, where absent (`none`) differs
from `0`. -/
structure TestsObj where
  coverage : Int := 0
  unitTests : Option Int := none
  integrationTests : Option Int := none
  e2eTests : Option Int := none
  failed : Int := 0
  performance : PerfResults := {}
  security : SecurityResults := {}
  deriving Repr, DecidableEq

/-- The hard-coded result of `ArchitectureChecker.analyzeStructure`. -/
structure StructureAnalysis where
  hasCircularDeps : Bool
  hasServiceBoundaries : Bool
  hasMutableGlobals : Bool
  hasExternalAPIs : Bool
  complexity : Int
  dependencyGraph : List String
  deriving Repr, DecidableEq

def analyzeStructure (_code : α) : StructureAnalysis :=
  { hasCircularDeps := false, hasServiceBoundaries := true
    hasMutableGlobals := false, hasExternalAPIs := false
    complexity := 5, dependencyGraph := [] }

/-- `ArchitectureChecker.check`. -/
def architectureCheck (code : α) (_tests : TestsObj) (requirement : String) :
    CheckResult :=
  let s := analyzeStructure code
  let issues : List Issue :=
    if requirement.toLower = "microservices" then
      (if s.hasCircularDeps then
        [⟨"Circular dependencies detected", "critical",
          some (toString s.dependencyGraph)⟩] else [])
      ++ (if ¬ s.hasServiceBoundaries then
        [⟨"Missing service boundaries", "warning", none⟩] else [])
    else if requirement.toLower = "monolithic" then
      (if s.hasExternalAPIs then
        [⟨"External APIs in monolithic architecture", "info", none⟩] else [])
    else if requirement.toLower = "functional" then
      (if s.hasMutableGlobals then
        [⟨"Mutable global state in functional code", "warning", none⟩] else [])
    else
      (if s.complexity > 10 then
        [⟨"High cyclomatic complexity", "warning", none⟩] else [])
  { passed := ¬ issues.any (fun i => i.severity = "critical")
    issues := issues
    critical := issues.any (fun i => i.severity = "critical") }

/-- The hard-coded result of `StyleChecker.analyzeStyle`. -/
structure StyleAnalysis where
  hasClasses : Bool
  hasSideEffects : Bool
  functionalPatternUsed : Bool
  lintingErrors : Int
  formattingIssues : Int
  namingConventions : String
  deriving Repr, DecidableEq

def analyzeStyle (_code : α) : StyleAnalysis :=
  { hasClasses := false, hasSideEffects := false
    functionalPatternUsed := false, lintingErrors := 0
    formattingIssues := 0, namingConventions := "consistent" }

/-- `StyleChecker.check`. -/
def styleCheck (code : α) (_tests : TestsObj) (requirement : String) :
    CheckResult :=
  let s := analyzeStyle code
  let issues : List Issue :=
    if requirement.toLower = "functional" then
      (if s.hasClasses then
        [⟨"Classes found in functional code", "info", none⟩] else [])
      ++ (if s.hasSideEffects then
        [⟨"Side effects detected", "warning", none⟩] else [])
    else if requirement.toLower = "oop" then
      (if s.functionalPatternUsed then
        [⟨"Functional patterns in OOP code", "info", none⟩] else [])
    else if requirement.toLower = "procedural" then []
    else
      (if s.lintingErrors > 0 then
        [⟨toString s.lintingErrors ++ " linting errors", "warning", none⟩]
       else [])
      ++ (if s.formattingIssues > 0 then
        [⟨toString s.formattingIssues ++ " formatting issues", "info", none⟩]
       else [])
  { passed := issues.isEmpty, issues := issues, critical := false }

/-- `TestingChecker.check`. -/
def testingCheck (_code : α) (tests : TestsObj) (requirement : String) :
    CheckResult :=
  let coverage := tests.coverage
  let requirements := (requirement.toLower.splitOn "+").map (fun r => r.trim)
  let unitIssues : List Issue :=
    if requirements.contains "unit" then
      (if tests.unitTests = some 0 then
        [⟨"No unit tests found", "warning", none⟩]
       else if coverage < 80 then
        [⟨"Unit test coverage " ++ toString coverage ++ "% (target: 80%)",
          "info", none⟩]
       else [])
    else []
  let integrationIssues : List Issue :=
    if requirements.contains "integration" then
      (if tests.integrationTests = some 0 then
        [⟨"No integration tests found", "warning", none⟩] else [])
    else []
  let e2eIssues : List Issue :=
    if requirements.contains "e2e" then
      (if tests.e2eTests = some 0 then
        [⟨"No E2E tests found", "info", none⟩] else [])
    else []
  let failedIssues : List Issue :=
    if tests.failed > 0 then
      [⟨toString tests.failed ++ " test(s) failed", "critical", none⟩]
    else []
  let issues := unitIssues ++ integrationIssues ++ e2eIssues ++ failedIssues
  { passed := ¬ issues.any (fun i => i.severity = "critical")
    issues := issues
    critical := issues.any (fun i => i.severity = "critical")
    coverage := some coverage }

/-! The performance regexes.  The source writes the regex literals with
doubled backslashes — `/<\\s*(\\d+)ms/i` and `/(\\d+)\\s*concurrent/i` — so
inside the regex `\\` matches a literal backslash character, `s*`/`d+`
match runs of the letters `s`/`d`, and the capture group is a literal
backslash followed by `d`s.  The matchers below implement exactly those
patterns (case-insensitively, like `/i`), and `jsParseInt` models JS
`parseInt`, which yields `NaN` (here `none`) on a string that starts with
a backslash. -/

def lcChar (c : Char) : Char := c.toLower

/-- Match a literal pattern case-insensitively; returns the rest on
success. -/
def matchesCI : List Char → List Char → Option (List Char)
  | [], cs => some cs
  | _ :: _, [] => none
  | p :: ps, c :: cs => if lcChar c = lcChar p then matchesCI ps cs else none

/-- Try `<\\s*(\\d+)ms` at the current position; returns the capture. -/
def matchTimeAt (cs : List Char) : Option (List Char) :=
  match cs with
  | '<' :: '\\' :: rest =>
      match rest.dropWhile (fun c => lcChar c = 's') with
      | '\\' :: rest2 =>
          match rest2.takeWhile (fun c => lcChar c = 'd') with
          | [] => none
          | d :: ds' =>
              match matchesCI ['m', 's']
                  (rest2.dropWhile (fun c => lcChar c = 'd')) with
              | some _ => some ('\\' :: d :: ds')
              | none => none
      | _ => none
  | _ => none

/-- `requirement.match(/<\\s*(\\d+)ms/i)`: first match anywhere. -/
def findTimeMatch : List Char → Option (List Char)
  | [] => none
  | c :: rest =>
      match matchTimeAt (c :: rest) with
      | some g => some g
      | none => findTimeMatch rest

/-- Try `(\\d+)\\s*concurrent` at the current position. -/
def matchConcAt (cs : List Char) : Option (List Char) :=
  match cs with
  | '\\' :: rest =>
      match rest.takeWhile (fun c => lcChar c = 'd') with
      | [] => none
      | d :: ds' =>
          match rest.dropWhile (fun c => lcChar c = 'd') with
          | '\\' :: rest2 =>
              match matchesCI "concurrent".toList
                  (rest2.dropWhile (fun c => lcChar c = 's')) with
              | some _ => some ('\\' :: d :: ds')
              | none => none
          | _ => none
  | _ => none

/-- `requirement.match(/(\\d+)\\s*concurrent/i)`: first match anywhere. -/
def findConcMatch : List Char → Option (List Char)
  | [] => none
  | c :: rest =>
      match matchConcAt (c :: rest) with
      | some g => some g
      | none => findConcMatch rest

/-- Leading decimal run of a character list, `none` when it does not start
with a digit (JS `parseInt` → `NaN`). -/
def digitsOf (cs : List Char) : Option Nat :=
  let run := cs.takeWhile (fun c => c.isDigit)
  if run.isEmpty then none
  else some (run.foldl (fun n c => n * 10 + (c.toNat - 48)) 0)

/-- JS `parseInt` on a character list: skip whitespace, optional sign,
leading digits; `none` models `NaN`. -/
def jsParseInt (cs : List Char) : Option Int :=
  match cs.dropWhile (fun c => c.isWhitespace) with
  | [] => none
  | c :: rest =>
      if c = '-' then (digitsOf rest).map (fun n => -(n : Int))
      else if c = '+' then (digitsOf rest).map (fun n => (n : Int))
      else (digitsOf (c :: rest)).map (fun n => (n : Int))

/-- `PerformanceChecker.check`.  Comparisons against a `NaN` target are
false in JS, modelled by the `none` branches producing no issue. -/
def performanceCheck (_code : α) (tests : TestsObj) (requirement : String) :
    CheckResult :=
  let perfResults := tests.performance
  let timeIssues : List Issue :=
    match findTimeMatch requirement.toList with
    | some g =>
        match jsParseInt g with
        | some targetTime =>
            if perfResults.avgResponseTime > targetTime then
              [⟨"Response time " ++ toString perfResults.avgResponseTime
                  ++ "ms exceeds target " ++ toString targetTime ++ "ms",
                if perfResults.avgResponseTime > targetTime * 2
                then "critical" else "warning", none⟩]
            else []
        | none => []
    | none => []
  let throughputIssues : List Issue :=
    match findConcMatch requirement.toList with
    | some g =>
        match jsParseInt g with
        | some targetConcurrent =>
            if perfResults.concurrentCapacity < targetConcurrent then
              [⟨"Concurrent capacity " ++ toString perfResults.concurrentCapacity
                  ++ " below target " ++ toString targetConcurrent,
                "warning", none⟩]
            else []
        | none => []
    | none => []
  let issues := timeIssues ++ throughputIssues
  { passed := issues.isEmpty, issues := issues
    critical := issues.any (fun i => i.severity = "critical") }

/-- Substring test (`String.prototype.includes`). -/
def startsWithChars : List Char → List Char → Bool
  | [], _ => true
  | _ :: _, [] => false
  | p :: ps, c :: cs => p = c && startsWithChars ps cs

def hasSubChars (sub : List Char) : List Char → Bool
  | [] => sub.isEmpty
  | c :: cs => startsWithChars sub (c :: cs) || hasSubChars sub cs

def includesStr (s sub : String) : Bool :=
  hasSubChars sub.toList s.toList

/-- `SecurityChecker.check`. -/
def securityCheck (_code : α) (tests : TestsObj) (requirement : String) :
    CheckResult :=
  let securityResults := tests.security
  let issues : List Issue :=
    (if securityResults.hardcodedSecrets then
      [⟨"Hardcoded secrets detected", "critical",
        securityResults.secretLocations⟩] else [])
    ++ (if securityResults.sqlInjectionRisk then
      [⟨"SQL injection vulnerability detected", "critical", none⟩] else [])
    ++ (if securityResults.xssRisk then
      [⟨"XSS vulnerability risk detected", "warning", none⟩] else [])
    ++ (if includesStr requirement.toLower "jwt" then
      (if ¬ securityResults.usesJWT then
        [⟨"JWT authentication not implemented", "warning", none⟩] else [])
      else [])
    ++ (if includesStr requirement.toLower "bcrypt" then
      (if ¬ securityResults.usesBcrypt then
        [⟨"bcrypt hashing not used for passwords", "warning", none⟩] else [])
      else [])
  { passed := ¬ issues.any (fun i => i.severity = "critical")
    issues := issues
    critical := issues.any (fun i => i.severity = "critical") }

/-- The goal tags relevant to `AlignmentChecker.checkAll`, matching the
keys of `this.checkers`. -/
structure GoalTags where
  architecture : Option String := none
  style : Option String := none
  testing : Option String := none
  performance : Option String := none
  security : Option String := none
  deriving Repr, DecidableEq

/-- The guard `goalValue && goalValue !== 'none' && goalValue !== 'standard'`
(an empty string is falsy). -/
def goalInvoked (g : Option String) : Option String :=
  match g with
  | some v => if v = "" ∨ v = "none" ∨ v = "standard" then none else some v
  | none => none

def optCheck (key : String) (g : Option String) (f : String → CheckResult) :
    List (String × CheckResult) :=
  match goalInvoked g with
  | some v => [(key, f v)]
  | none => []

/-- The `results` object built by `checkAll`'s loop, in the insertion order
of `this.checkers`. -/
def invokedChecks (code : α) (tests : TestsObj) (g : GoalTags) :
    List (String × CheckResult) :=
  optCheck "architecture" g.architecture (architectureCheck code tests)
  ++ optCheck "style" g.style (styleCheck code tests)
  ++ optCheck "testing" g.testing (testingCheck code tests)
  ++ optCheck "performance" g.performance (performanceCheck code tests)
  ++ optCheck "security" g.security (securityCheck code tests)

/-- `AlignmentChecker.combineResults`: collect the issues of failed
categories (tagging category and defaulting severity to `'warning'`), OR
the critical flags of failed categories, and pass iff no issue was
collected. -/
def combineResults (results : List (String × CheckResult)) : AlignmentResult :=
  let issues := results.foldl
    (fun acc p =>
      if p.2.passed then acc
      else acc ++ p.2.issues.map (fun i =>
        ⟨p.1, i.message,
         if i.severity = "" then "warning" else i.severity, i.location⟩))
    []
  let critical := results.foldl
    (fun b p => if ¬ p.2.passed ∧ p.2.critical then true else b) false
  { passed := issues.isEmpty, issues := issues, critical := critical
    details := results }

/-- `AlignmentChecker.checkAll`. -/
def checkAll (code : α) (tests : TestsObj) (g : GoalTags) : AlignmentResult :=
  combineResults (invokedChecks code tests g)

theorem architectureCheck_eq (code : α) (tests : TestsObj) (r : String) :
    architectureCheck code tests r
      = { passed := true, issues := [], critical := false } := by
  unfold architectureCheck analyzeStructure
  split_ifs <;> rfl

theorem styleCheck_eq (code : α) (tests : TestsObj) (r : String) :
    styleCheck code tests r
      = { passed := true, issues := [], critical := false } := by
  unfold styleCheck analyzeStyle
  split_ifs <;> rfl

theorem matchTimeAt_head (cs g : List Char) (h : matchTimeAt cs = some g) :
    ∃ ds, g = '\\' :: ds := by
  unfold matchTimeAt at h
  repeat' split at h
  all_goals cases h
  exact ⟨_, rfl⟩

theorem matchConcAt_head (cs g : List Char) (h : matchConcAt cs = some g) :
    ∃ ds, g = '\\' :: ds := by
  unfold matchConcAt at h
  repeat' split at h
  all_goals cases h
  exact ⟨_, rfl⟩

theorem findTimeMatch_head : ∀ cs g, findTimeMatch cs = some g →
    ∃ ds, g = '\\' :: ds := by
  intro cs
  induction cs with
  | nil => intro g h; cases h
  | cons c rest ih =>
    intro g h
    unfold findTimeMatch at h
    split at h
    · next hg' => cases h; exact matchTimeAt_head _ _ hg'
    · exact ih g h

theorem findConcMatch_head : ∀ cs g, findConcMatch cs = some g →
    ∃ ds, g = '\\' :: ds := by
  intro cs
  induction cs with
  | nil => intro g h; cases h
  | cons c rest ih =>
    intro g h
    unfold findConcMatch at h
    split at h
    · next hg' => cases h; exact matchConcAt_head _ _ hg'
    · exact ih g h

theorem jsParseInt_backslash (ds : List Char) :
    jsParseInt ('\\' :: ds) = none := by
  unfold jsParseInt
  have h1 : ('\\' :: ds).dropWhile (fun c => c.isWhitespace) = '\\' :: ds := by
    rw [List.dropWhile_cons]
    simp
  rw [h1]
  have h2 : ¬ ('\\' = '-') := by decide
  have h3 : ¬ ('\\' = '+') := by decide
  simp only [if_neg h2, if_neg h3]
  unfold digitsOf
  rw [List.takeWhile_cons]
  simp

theorem performanceCheck_eq (code : α) (tests : TestsObj) (r : String) :
    performanceCheck code tests r
      = { passed := true, issues := [], critical := false } := by
  simp only [performanceCheck]
  have htime : (match findTimeMatch r.toList with
      | some g =>
          match jsParseInt g with
          | some targetTime =>
              if tests.performance.avgResponseTime > targetTime then
                [(⟨"Response time " ++ toString tests.performance.avgResponseTime
                    ++ "ms exceeds target " ++ toString targetTime ++ "ms",
                  if tests.performance.avgResponseTime > targetTime * 2
                  then "critical" else "warning", none⟩ : Issue)]
              else []
          | none => []
      | none => []) = ([] : List Issue) := by
    cases hm : findTimeMatch r.toList with
    | none => rfl
    | some g =>
      obtain ⟨ds, rfl⟩ := findTimeMatch_head _ _ hm
      simp [jsParseInt_backslash]
  have hconc : (match findConcMatch r.toList with
      | some g =>
          match jsParseInt g with
          | some targetConcurrent =>
              if tests.performance.concurrentCapacity < targetConcurrent then
                [(⟨"Concurrent capacity "
                    ++ toString tests.performance.concurrentCapacity
                    ++ " below target " ++ toString targetConcurrent,
                  "warning", none⟩ : Issue)]
              else []
          | none => []
      | none => []) = ([] : List Issue) := by
    cases hm : findConcMatch r.toList with
    | none => rfl
    | some g =>
      obtain ⟨ds, rfl⟩ := findConcMatch_head _ _ hm
      simp [jsParseInt_backslash]
  rw [htime, hconc]
  rfl

theorem decide_not_eq_bnot (b : Bool) : (decide (¬ b = true)) = !b := by
  cases b <;> simp

theorem any_true_ne_nil (l : List Issue) (p : Issue → Bool)
    (h : l.any p = true) : l ≠ [] := by
  obtain ⟨x, hx, _⟩ := List.any_eq_true.mp h
  exact List.ne_nil_of_mem hx

theorem testingCheck_spec (code : α) (tests : TestsObj) (r : String) :
    (testingCheck code tests r).passed = !(testingCheck code tests r).critical
    ∧ ((testingCheck code tests r).critical = true →
        (testingCheck code tests r).issues ≠ []) :=
  ⟨decide_not_eq_bnot _, fun h => any_true_ne_nil _ _ h⟩

theorem securityCheck_spec (code : α) (tests : TestsObj) (r : String) :
    (securityCheck code tests r).passed = !(securityCheck code tests r).critical
    ∧ ((securityCheck code tests r).critical = true →
        (securityCheck code tests r).issues ≠ []) :=
  ⟨decide_not_eq_bnot _, fun h => any_true_ne_nil _ _ h⟩

/-- The property shared by all five checkers that makes the aggregate
behave: a category fails exactly when it is critical, and a critical
category reports at least one issue. -/
def GoodCheck (cr : CheckResult) : Prop :=
  cr.passed = !cr.critical ∧ (cr.critical = true → cr.issues ≠ [])

theorem mem_optCheck (p : String × CheckResult) (k : String)
    (gv : Option String) (f : String → CheckResult)
    (hp : p ∈ optCheck k gv f) : ∃ v, p = (k, f v) := by
  unfold optCheck at hp
  rcases h : goalInvoked gv with _ | v
  · rw [h] at hp
    cases hp
  · rw [h] at hp
    exact ⟨v, List.mem_singleton.mp hp⟩

theorem invoked_good (code : α) (tests : TestsObj) (g : GoalTags) :
    ∀ p ∈ invokedChecks code tests g, GoodCheck p.2 := by
  intro p hp
  unfold invokedChecks at hp
  rcases List.mem_append.mp hp with hp | hp
  rotate_left
  · obtain ⟨v, rfl⟩ := mem_optCheck _ _ _ _ hp
    exact securityCheck_spec code tests v
  rcases List.mem_append.mp hp with hp | hp
  rotate_left
  · obtain ⟨v, rfl⟩ := mem_optCheck _ _ _ _ hp
    rw [show ((("performance", performanceCheck code tests v)).2)
      = performanceCheck code tests v from rfl, performanceCheck_eq]
    exact ⟨rfl, fun h => nomatch h⟩
  rcases List.mem_append.mp hp with hp | hp
  rotate_left
  · obtain ⟨v, rfl⟩ := mem_optCheck _ _ _ _ hp
    exact testingCheck_spec code tests v
  rcases List.mem_append.mp hp with hp | hp
  · obtain ⟨v, rfl⟩ := mem_optCheck _ _ _ _ hp
    rw [show ((("architecture", architectureCheck code tests v)).2)
      = architectureCheck code tests v from rfl, architectureCheck_eq]
    exact ⟨rfl, fun h => nomatch h⟩
  · obtain ⟨v, rfl⟩ := mem_optCheck _ _ _ _ hp
    rw [show ((("style", styleCheck code tests v)).2)
      = styleCheck code tests v from rfl, styleCheck_eq]
    exact ⟨rfl, fun h => nomatch h⟩

theorem combine_fold_issues (rs : List (String × CheckResult)) :
    ∀ acc, rs.foldl
      (fun acc p =>
        if p.2.passed then acc
        else acc ++ p.2.issues.map (fun i =>
          (⟨p.1, i.message,
            if i.severity = "" then "warning" else i.severity,
            i.location⟩ : AggIssue))) acc
      = acc ++ rs.flatMap (fun p =>
          if p.2.passed then []
          else p.2.issues.map (fun i =>
            ⟨p.1, i.message,
             if i.severity = "" then "warning" else i.severity,
             i.location⟩)) := by
  induction rs with
  | nil => intro acc; simp
  | cons p rs ih =>
    intro acc
    simp only [List.foldl_cons, List.flatMap_cons]
    by_cases hp : p.2.passed = true
    · rw [if_pos hp, ih, if_pos hp]
      simp
    · rw [if_neg hp, ih, if_neg hp]
      simp [List.append_assoc]

theorem combine_fold_crit (rs : List (String × CheckResult)) :
    ∀ b, rs.foldl
      (fun b p => if ¬ p.2.passed ∧ p.2.critical then true else b) b
      = (b || rs.any (fun p => !p.2.passed && p.2.critical)) := by
  induction rs with
  | nil => intro b; simp
  | cons p rs ih =>
    intro b
    simp only [List.foldl_cons, List.any_cons]
    by_cases hp : p.2.passed = true <;> by_cases hc : p.2.critical = true
    · rw [if_neg (by simp [hp]), ih]
      simp [hp, hc]
    · rw [if_neg (by simp [hp]), ih]
      simp [hp, Bool.eq_false_iff.mpr hc]
    · rw [if_pos ⟨by simp [Bool.eq_false_iff.mpr hp], hc⟩, ih]
      simp [Bool.eq_false_iff.mpr hp, hc, ih]
    · rw [if_neg (by simp [hc]), ih]
      simp [Bool.eq_false_iff.mpr hc]

theorem any_crit_congr (rs : List (String × CheckResult))
    (hG : ∀ p ∈ rs, GoodCheck p.2) :
    rs.any (fun p => !p.2.passed && p.2.critical)
      = rs.any (fun p => p.2.critical) := by
  induction rs with
  | nil => rfl
  | cons p rs ih =>
    simp only [List.any_cons]
    have hg := hG p (List.mem_cons_self _ _)
    rw [ih (fun q hq => hG q (List.mem_cons_of_mem _ hq))]
    rw [hg.1]
    cases hc : p.2.critical <;> simp [hc]

theorem combineResults_spec (results : List (String × CheckResult))
    (hG : ∀ p ∈ results, GoodCheck p.2) :
    (combineResults results).critical
        = results.any (fun p => p.2.critical)
    ∧ ((combineResults results).passed = true ↔
        ∀ p ∈ results, p.2.critical = false) := by
  constructor
  · show results.foldl _ false = _
    rw [combine_fold_crit, Bool.false_or, any_crit_congr results hG]
  · show (results.foldl _ []).isEmpty = true ↔ _
    rw [combine_fold_issues, List.nil_append]
    rw [List.isEmpty_iff]
    rw [List.flatMap_eq_nil_iff]
    constructor
    · intro hall p hp
      have hseg := hall p hp
      have hg := hG p hp
      by_cases hpass : p.2.passed = true
      · rw [hg.1] at hpass
        simpa using hpass
      · rw [if_neg hpass] at hseg
        have hcrit : p.2.critical = true := by
          rw [hg.1] at hpass
          simpa using hpass
        exact absurd (List.map_eq_nil_iff.mp hseg) (hg.2 hcrit)
    · intro hall p hp
      have hcrit := hall p hp
      have hg := hG p hp
      have hpass : p.2.passed = true := by
        rw [hg.1, hcrit]
        rfl
      rw [if_pos hpass]

/-- C2: for every input and set of invoked checker categories, the
aggregate `critical` flag of `checkAll` is the OR of the invoked
categories' critical flags, and the aggregate passes exactly when no
invoked category is critical (non-critical warnings or info issues alone
never fail the aggregate, because every concrete checker fails only when
critical). -/
theorem checkAll_aggregate (code : α) (tests : TestsObj) (g : GoalTags) :
    (checkAll code tests g).critical
        = (invokedChecks code tests g).any (fun p => p.2.critical)
    ∧ ((checkAll code tests g).passed = true ↔
        ∀ p ∈ invokedChecks code tests g, p.2.critical = false) :=
  combineResults_spec _ (invoked_good code tests g)

/-- C6: the performance checker can never fire.  The source's regex
literals `/<\\s*(\\d+)ms/i` and `/(\\d+)\\s*concurrent/i` escape the
backslashes, so the capture is a literal backslash followed by `d`s and
`parseInt` of it is `NaN`; every comparison against the target is
therefore false.  In particular the documented goal format `"< 100ms"`
with a measured 300ms (> 2× the 100ms target, which the claim says is
critical) passes with no issue. -/
theorem performanceCheck_regex_bug :
    (∀ (tests : TestsObj) (r : String),
      performanceCheck (α := Unit) () tests r
        = { passed := true, issues := [], critical := false })
    ∧ performanceCheck (α := Unit) ()
        { performance := { avgResponseTime := 300 } } "< 100ms"
        = { passed := true, issues := [], critical := false }
    ∧ (300 : Int) > 100 * 2 :=
  ⟨fun tests r => performanceCheck_eq () tests r, by decide, by decide⟩

/-! ### Oversight results, execution summary and milestone report
(`team-manager.js` and `alert-system.js`) -/

/-- JS `Math.round` on an exact fraction: round half away from zero is
`⌊x + 1/2⌋` for the non-negative ratios used here. -/
def jsRound (q : ℚ) : ℤ := ⌊q + 1 / 2⌋

/-- The alignment record attached to a completed task (what
`oversight.checkAlignment` resolves to, or the fallback records built by
`runOversightCheck`). -/
structure Alignment where
  status : String
  reason : String := ""
  issues : List AggIssue := []
  details : List (String × CheckResult) := []
  deriving Repr, DecidableEq

/-- `TeamManager.runOversightCheck`: no oversight agent → `not-checked`;
a result from the collaborator is passed through; a thrown error is caught
and converted to `{status: 'error', reason}` (the function is total — the
run does not crash).  The collaborator call is modelled by its outcome. -/
def runOversightCheck (oversight : Option (Except String Alignment)) :
    Alignment :=
  match oversight with
  | none => { status := "not-checked", reason := "No oversight agent" }
  | some (Except.ok a) => a
  | some (Except.error msg) => { status := "error", reason := msg }

/-- An entry of `this.completedTasks`. -/
structure CompletedTask where
  id : String
  alignment : Option Alignment := none
  deriving Repr, DecidableEq

/-- The slice of `TeamManager` state read by `generateSummary`. -/
structure TMState where
  completedTasks : List CompletedTask
  blockedTasks : List String
  planTaskCount : Nat
  deriving Repr, DecidableEq

structure Summary where
  totalTasks : Nat
  completedTasks : Nat
  blockedTasks : Nat
  alignedTasks : Nat
  misalignedTasks : Nat
  completionRate : ℤ
  alignmentRate : ℤ
  deriving Repr, DecidableEq

/-- `TeamManager.generateSummary`.  Note the denominators: completion over
`plan.tasks.length`, alignment over ALL completed tasks (whatever their
alignment status). -/
def generateSummary (st : TMState) : Summary :=
  let completed := st.completedTasks.length
  let blocked := st.blockedTasks.length
  let total := st.planTaskCount
  let aligned := (st.completedTasks.filter
    (fun t => t.alignment.map (fun a => a.status) = some "aligned")).length
  let misaligned := (st.completedTasks.filter
    (fun t => t.alignment.map (fun a => a.status) = some "misaligned")).length
  { totalTasks := total
    completedTasks := completed
    blockedTasks := blocked
    alignedTasks := aligned
    misalignedTasks := misaligned
    completionRate :=
      if 0 < total then jsRound ((completed : ℚ) / total * 100) else 0
    alignmentRate :=
      if 0 < completed then jsRound ((aligned : ℚ) / completed * 100) else 0 }

/-- An element of the `taskResults` array passed to
`generateMilestoneReport`. -/
structure TaskResult where
  id : String := ""
  taskId : String := ""
  goalTags : List (String × String) := []
  alignment : Option Alignment := none
  deriving Repr, DecidableEq

structure Recommendation where
  type : String
  priority : String
  message : String
  deriving Repr, DecidableEq

structure ReportDetail where
  id : String
  status : String
  issues : Nat
  deriving Repr, DecidableEq

structure ReportSummary where
  totalTasks : Nat
  aligned : Nat
  misaligned : Nat
  notChecked : Nat
  score : ℤ
  deriving Repr, DecidableEq

structure GoalAchievement where
  target : String
  aligned : Nat
  total : Nat
  percentage : ℤ
  deriving Repr, DecidableEq

/-- The milestone report (the real-time `timestamp` field is omitted from
the embedding). -/
structure MilestoneReport where
  milestone : String
  summary : ReportSummary
  status : String
  goalAchievements : List (String × GoalAchievement)
  recommendations : List Recommendation
  details : List ReportDetail
  deriving Repr, DecidableEq

/-- `r.id || r.taskId`. -/
def resolvedId (r : TaskResult) : String :=
  if r.id = "" then r.taskId else r.id

/-- `r.alignment?.status || 'not-checked'`. -/
def alignmentStatusOf (r : TaskResult) : String :=
  match r.alignment with
  | some a => if a.status = "" then "not-checked" else a.status
  | none => "not-checked"

/-- `r.goalTags?.[goalKey]` truthiness. -/
def goalTagTruthy (m : List (String × String)) (k : String) : Bool :=
  match mapGet m k with
  | some v => ¬ v = ""
  | none => false

/-- `r.alignment?.details?.[goalKey]?.passed`. -/
def goalDetailPassed (r : TaskResult) (k : String) : Bool :=
  match r.alignment with
  | some a =>
      match mapGet a.details k with
      | some cr => cr.passed
      | none => false
  | none => false

/-- `generateMilestoneReport({taskResults, goals, milestoneName})`. -/
def generateMilestoneReport (taskResults : List TaskResult)
    (goals : List (String × String)) (milestoneName : String) :
    MilestoneReport :=
  let aligned := (taskResults.filter
    (fun r => r.alignment.map (fun a => a.status) = some "aligned")).length
  let misaligned := (taskResults.filter
    (fun r => r.alignment.map (fun a => a.status) = some "misaligned")).length
  let notChecked := (taskResults.filter (fun r => r.alignment.isNone)).length
  let total := taskResults.length
  let score : ℤ :=
    if 0 < total then jsRound ((aligned : ℚ) / total * 100) else 0
  let misalignedTasks := (taskResults.filter
    (fun r => r.alignment.map (fun a => a.status) = some "misaligned")).map
      resolvedId
  let recommendations : List Recommendation :=
    (if 0 < misaligned then
      [⟨"fix-misaligned", "high",
        "Review and fix " ++ toString misalignedTasks.length
          ++ " misaligned task(s): "
          ++ String.intercalate ", " misalignedTasks⟩]
     else [])
    ++ (if score < 80 then
      [⟨"improve-alignment", "medium",
        "Alignment score " ++ toString score ++ "% is below 80% target"⟩]
     else [])
  let goalAchievements := goals.map (fun gp =>
    let relevantTasks := taskResults.filter
      (fun r => goalTagTruthy r.goalTags gp.1)
    let goalAligned := (relevantTasks.filter
      (fun r => goalDetailPassed r gp.1)).length
    (gp.1, (⟨gp.2, goalAligned, relevantTasks.length,
      if 0 < relevantTasks.length then
        jsRound ((goalAligned : ℚ) / relevantTasks.length * 100)
      else 100⟩ : GoalAchievement)))
  { milestone := milestoneName
    summary := ⟨total, aligned, misaligned, notChecked, score⟩
    status :=
      if 90 ≤ score then "aligned"
      else if 70 ≤ score then "partial"
      else "misaligned"
    goalAchievements := goalAchievements
    recommendations := recommendations
    details := taskResults.map (fun r =>
      ⟨resolvedId r, alignmentStatusOf r,
       (r.alignment.map (fun a => a.issues.length)).getD 0⟩) }

theorem jsRound_eq (q : ℚ) (n : ℤ) (h1 : (n : ℚ) ≤ q + 1 / 2)
    (h2 : q + 1 / 2 < n + 1) : jsRound q = n := by
  unfold jsRound
  exact Int.floor_eq_iff.mpr ⟨h1, h2⟩

/-- C5 (counterexample): with one aligned task and one task whose
alignment check errored, `generateSummary` reports an alignment rate of
50% — the errored task IS counted in the denominator (`completed = 2`),
not excluded from it (which would give 100%). -/
theorem alignmentRate_counts_error_denominator :
    (generateSummary
      { completedTasks :=
          [⟨"1", some ⟨"aligned", "", [], []⟩⟩,
           ⟨"2", some ⟨"error", "boom", [], []⟩⟩]
        blockedTasks := [], planTaskCount := 2 }).alignmentRate = 50
    ∧ jsRound ((1 : ℚ) / 1 * 100) = 100
    ∧ (50 : ℤ) ≠ 100 := by
  refine ⟨?_, ?_, by decide⟩
  · have h1 : (([⟨"1", some ⟨"aligned", "", [], []⟩⟩,
        ⟨"2", some ⟨"error", "boom", [], []⟩⟩] : List CompletedTask).filter
        (fun t => t.alignment.map (fun a => a.status) = some "aligned")).length
        = 1 := by decide
    simp only [generateSummary, h1]
    norm_num
    rw [jsRound_eq _ 50 (by norm_num) (by norm_num)]
  · rw [jsRound_eq _ 100 (by norm_num) (by norm_num)]

/-- C5 (amended): an errored alignment check is converted by
`runOversightCheck` to the status `'error'` (distinct from
`'misaligned'`) without crashing; the task is still recorded as completed
and appears in the milestone report's details with its status, is counted
in neither the aligned nor the misaligned numerator, but IS included in
the denominators of the alignment rate (all completed tasks) and of the
milestone score (all task results). -/
theorem oversight_error_spec (msg : String) (st : TMState)
    (e : CompletedTask) (al : Alignment) (he : e.alignment = some al)
    (hs : al.status = "error") (rs : List TaskResult)
    (goals : List (String × String)) (name : String) (er : TaskResult)
    (her : er.alignment = some al) :
    (runOversightCheck (some (Except.error msg))).status = "error"
    ∧ (runOversightCheck (some (Except.error msg))).status ≠ "misaligned"
    ∧ (generateSummary
        { st with completedTasks := e :: st.completedTasks }).alignedTasks
        = (generateSummary st).alignedTasks
    ∧ (generateSummary
        { st with completedTasks := e :: st.completedTasks }).misalignedTasks
        = (generateSummary st).misalignedTasks
    ∧ (generateSummary
        { st with completedTasks := e :: st.completedTasks }).completedTasks
        = (generateSummary st).completedTasks + 1
    ∧ (generateMilestoneReport (er :: rs) goals name).summary.aligned
        = (generateMilestoneReport rs goals name).summary.aligned
    ∧ (generateMilestoneReport (er :: rs) goals name).summary.misaligned
        = (generateMilestoneReport rs goals name).summary.misaligned
    ∧ (generateMilestoneReport (er :: rs) goals name).summary.totalTasks
        = (generateMilestoneReport rs goals name).summary.totalTasks + 1
    ∧ (generateMilestoneReport (er :: rs) goals name).details.head?
        = some ⟨resolvedId er, "error", al.issues.length⟩ := by
  refine ⟨rfl, by simp [runOversightCheck], ?_, ?_, ?_, ?_, ?_, ?_, ?_⟩
  · simp [generateSummary, List.filter_cons, he, hs]
  · simp [generateSummary, List.filter_cons, he, hs]
  · simp [generateSummary]
  · simp [generateMilestoneReport, List.filter_cons, her, hs]
  · simp [generateMilestoneReport, List.filter_cons, her, hs]
  · simp [generateMilestoneReport]
  · simp [generateMilestoneReport, alignmentStatusOf, her, hs]

/-- Witness for C5. -/
theorem oversight_error_spec_witness :
    (runOversightCheck (some (Except.error "boom"))).status = "error" :=
  (oversight_error_spec "boom" ⟨[], [], 1⟩
    ⟨"2", some ⟨"error", "boom", [], []⟩⟩ ⟨"error", "boom", [], []⟩ rfl rfl
    [] [] "M" ⟨"", "2", [], some ⟨"error", "boom", [], []⟩⟩ rfl).1

/-- C9: for a non-empty result set the milestone score is
`round(aligned / total * 100)`, the status follows the 90/70 thresholds on
the score, the recommendations contain exactly one high-priority entry —
listing all misaligned task ids — iff some task is misaligned, and exactly
one medium-priority entry iff the score is below 80. -/
theorem generateMilestoneReport_spec (taskResults : List TaskResult)
    (goals : List (String × String)) (name : String)
    (h : 0 < taskResults.length) :
    (generateMilestoneReport taskResults goals name).summary.score
        = jsRound (((taskResults.filter (fun r =>
            r.alignment.map (fun a => a.status) = some "aligned")).length : ℚ)
            / taskResults.length * 100)
    ∧ (generateMilestoneReport taskResults goals name).status
        = (if 90 ≤ (generateMilestoneReport taskResults goals name).summary.score
           then "aligned"
           else if 70 ≤ (generateMilestoneReport taskResults goals name).summary.score
           then "partial" else "misaligned")
    ∧ ((generateMilestoneReport taskResults goals name).recommendations.filter
          (fun rec => rec.priority = "high")).length
        = (if 0 < (taskResults.filter (fun r =>
            r.alignment.map (fun a => a.status) = some "misaligned")).length
           then 1 else 0)
    ∧ (∀ rec ∈ (generateMilestoneReport taskResults goals name).recommendations.filter
          (fun rec => rec.priority = "high"),
        rec.message = "Review and fix "
          ++ toString ((taskResults.filter (fun r =>
              r.alignment.map (fun a => a.status) = some "misaligned")).map
                resolvedId).length
          ++ " misaligned task(s): "
          ++ String.intercalate ", " ((taskResults.filter (fun r =>
              r.alignment.map (fun a => a.status) = some "misaligned")).map
                resolvedId))
    ∧ ((generateMilestoneReport taskResults goals name).recommendations.filter
          (fun rec => rec.priority = "medium")).length
        = (if (generateMilestoneReport taskResults goals name).summary.score < 80
           then 1 else 0) := by
  refine ⟨?_, ?_, ?_, ?_, ?_⟩
  · simp only [generateMilestoneReport, if_pos h]
  · rfl
  · simp only [generateMilestoneReport]
    by_cases hm : 0 < (taskResults.filter (fun r =>
        r.alignment.map (fun a => a.status) = some "misaligned")).length
    · rw [if_pos hm, if_pos hm]
      by_cases hsc : (if 0 < taskResults.length then
          jsRound (((taskResults.filter (fun r =>
            r.alignment.map (fun a => a.status) = some "aligned")).length : ℚ)
            / taskResults.length * 100) else 0) < 80
      · rw [if_pos hsc]
        simp [List.filter_cons]
      · rw [if_neg hsc]
        simp [List.filter_cons]
    · rw [if_neg hm, if_neg hm]
      by_cases hsc : (if 0 < taskResults.length then
          jsRound (((taskResults.filter (fun r =>
            r.alignment.map (fun a => a.status) = some "aligned")).length : ℚ)
            / taskResults.length * 100) else 0) < 80
      · rw [if_pos hsc]
        simp [List.filter_cons]
      · rw [if_neg hsc]
        simp [List.filter_cons]
  · simp only [generateMilestoneReport]
    intro rec hrec
    by_cases hm : 0 < (taskResults.filter (fun r =>
        r.alignment.map (fun a => a.status) = some "misaligned")).length
    · rw [if_pos hm] at hrec
      by_cases hsc : (if 0 < taskResults.length then
          jsRound (((taskResults.filter (fun r =>
            r.alignment.map (fun a => a.status) = some "aligned")).length : ℚ)
            / taskResults.length * 100) else 0) < 80
      · rw [if_pos hsc] at hrec
        simp [List.filter_cons] at hrec
        rw [hrec]
        simp
      · rw [if_neg hsc] at hrec
        simp [List.filter_cons] at hrec
        rw [hrec]
        simp
    · rw [if_neg hm] at hrec
      by_cases hsc : (if 0 < taskResults.length then
          jsRound (((taskResults.filter (fun r =>
            r.alignment.map (fun a => a.status) = some "aligned")).length : ℚ)
            / taskResults.length * 100) else 0) < 80
      · rw [if_pos hsc] at hrec
        simp [List.filter_cons] at hrec
      · rw [if_neg hsc] at hrec
        simp at hrec
  · simp only [generateMilestoneReport]
    by_cases hm : 0 < (taskResults.filter (fun r =>
        r.alignment.map (fun a => a.status) = some "misaligned")).length
    · rw [if_pos hm]
      by_cases hsc : (if 0 < taskResults.length then
          jsRound (((taskResults.filter (fun r =>
            r.alignment.map (fun a => a.status) = some "aligned")).length : ℚ)
            / taskResults.length * 100) else 0) < 80
      · rw [if_pos hsc, if_pos hsc]
        simp [List.filter_cons]
      · rw [if_neg hsc, if_neg hsc]
        simp [List.filter_cons]
    · rw [if_neg hm]
      by_cases hsc : (if 0 < taskResults.length then
          jsRound (((taskResults.filter (fun r =>
            r.alignment.map (fun a => a.status) = some "aligned")).length : ℚ)
            / taskResults.length * 100) else 0) < 80
      · rw [if_pos hsc, if_pos hsc]
        simp [List.filter_cons]
      · rw [if_neg hsc, if_neg hsc]
        simp [List.filter_cons]

/-- Witness for C9 at a two-element result set. -/
theorem generateMilestoneReport_spec_witness :
    (generateMilestoneReport
      [⟨"1", "", [], some ⟨"aligned", "", [], []⟩⟩,
       ⟨"2", "", [], some ⟨"misaligned", "", [], []⟩⟩] [] "M").summary.score
      = jsRound (((([⟨"1", "", [], some ⟨"aligned", "", [], []⟩⟩,
          ⟨"2", "", [], some ⟨"misaligned", "", [], []⟩⟩] : List TaskResult).filter
          (fun r => r.alignment.map (fun a => a.status) = some "aligned")).length : ℚ)
          / ([⟨"1", "", [], some ⟨"aligned", "", [], []⟩⟩,
          ⟨"2", "", [], some ⟨"misaligned", "", [], []⟩⟩] : List TaskResult).length
          * 100) :=
  (generateMilestoneReport_spec
    [⟨"1", "", [], some ⟨"aligned", "", [], []⟩⟩,
     ⟨"2", "", [], some ⟨"misaligned", "", [], []⟩⟩] [] "M" (by decide)).1

end Teams
